import Mathlib

/-!
Verification development for the xconfig repository (github.com/sxwebdev/xconfig).

The development shallowly embeds the two cores of the repository:

* Part A — the unknown-field detector and loader orchestration
  (`plugins/loader/unknown_fields.go`, `plugins/loader/file.go`,
  `xconfig.go`): Go struct types are modelled by the inductive `Ty`,
  decoded file content by `JVal`, and the functions
  `collectStructFields`, `compareFields`, `findUnknownFields`,
  `walkerParse`, `configParse` and the `UnknownFieldsError` message are
  translated from the Go source.

* Part B — the flat view of a schema and string-to-value coercion
  (`flat/flat.go`, `flat/field.go`): Go runtime values are modelled by
  the inductive `MVal`, the walker `walkStructWithParentTags` by
  `walkFields`/`walkMapEntries`, and `field.Set` with its `strconv`
  helpers by `fieldSet`/`coerceVal` together with faithful models of
  `strconv.ParseBool/ParseInt/ParseUint` and `time.ParseDuration`.

Modelling conventions, stated once:
* Go `map` iteration order is unspecified; maps are modelled as
  association lists and iteration order as list order.
* `strings.ToLower` is modelled by the ASCII `toLowerGo`; all inputs
  considered in theorems are ASCII.
* Machine integers are modelled by `Nat`/`Int` with explicit range
  constants (`2^63`, `2^64 - 1`) where Go's `uint64`/`int64` arithmetic
  matters, and `reflect.Value.SetInt/SetUint` truncation by explicit
  wrapping functions.
-/

/-! ### Shared list/string helpers -/

/-- Go string comparison (`s <= t`): byte-wise lexicographic order, which
for UTF-8 strings coincides with code-point lexicographic order. -/
def strLeChars : List Char → List Char → Bool
  | [], _ => true
  | _ :: _, [] => false
  | a :: as, b :: bs =>
    if a.toNat < b.toNat then true
    else if b.toNat < a.toNat then false
    else strLeChars as bs

def strLeB (a b : String) : Bool := strLeChars a.data b.data

/-- Insert into a sorted list, keeping it sorted. -/
def insertSorted (x : String) : List String → List String
  | [] => [x]
  | y :: ys => if strLeB x y then x :: y :: ys else y :: insertSorted x ys

/-- Go `sort.Strings`: ascending lexicographic sort (any sorting algorithm
models the sorted result; insertion sort is used here). -/
def sortStrings : List String → List String
  | [] => []
  | x :: xs => insertSorted x (sortStrings xs)

/-- Go `strings.Split(s, sep)` for the single-character separators (`"."`,
`","`) this code base uses: split at every occurrence; the empty string
yields `[""]`. -/
def splitCharAux (c : Char) : List Char → List Char → List String
  | [], acc => [String.mk acc]
  | x :: rest, acc =>
    if x == c then String.mk acc :: splitCharAux c rest []
    else splitCharAux c rest (acc ++ [x])

def splitByChar (c : Char) (s : String) : List String := splitCharAux c s.data []

/-- Go `strings.ToLower` restricted to ASCII (configuration keys are
ASCII): lower-case the `A`-`Z` range. -/
def charLower (c : Char) : Char :=
  if 65 ≤ c.toNat ∧ c.toNat ≤ 90 then Char.ofNat (c.toNat + 32) else c

def toLowerGo (s : String) : String := String.mk (s.data.map charLower)

/-- Assignment `m[k] = v` on a Go map modelled as an association list:
replace the value of an existing key, otherwise append the binding. -/
def assocSet {β : Type} (es : List (String × β)) (k : String) (v : β) :
    List (String × β) :=
  match es with
  | [] => [(k, v)]
  | (k0, v0) :: rest => if k0 == k then (k, v) :: rest else (k0, v0) :: assocSet rest k v

/-! ## Part A: the unknown-field detector (`plugins/loader/unknown_fields.go`) -/

/-- Model of a Go type as consumed by `getValidFields`/`collectStructFields`:
only the distinctions the Go code makes are represented.  `prim` stands for
any scalar kind, `iface` for `interface{}` (`any`), `struc` for a struct
whose fields are `TField`s, and `ptrTo` for one level of pointer. -/
inductive Ty where
  | prim : Ty
  | iface : Ty
  | struc : List (String × String × String × Bool × Bool × Ty) → Ty
  | sliceOf : Ty → Ty
  | mapOf : Ty → Ty
  | ptrTo : Ty → Ty

/-- A struct field of the model: Go field name, raw `yaml` tag value
(`""` when absent, as returned by `StructTag.Get`), raw `json` tag value,
exported flag, anonymous (embedded) flag, and field type. -/
abbrev TField := String × String × String × Bool × Bool × Ty

def TField.fname (f : TField) : String := f.1
def TField.yamlTag (f : TField) : String := f.2.1
def TField.jsonTag (f : TField) : String := f.2.2.1
def TField.exported (f : TField) : Bool := f.2.2.2.1
def TField.anon (f : TField) : Bool := f.2.2.2.2.1
def TField.ty (f : TField) : Ty := f.2.2.2.2.2

/-- One level of pointer dereference
(`if fieldType.Kind() == reflect.Ptr { fieldType = fieldType.Elem() }`). -/
def derefPtr : Ty → Ty
  | .ptrTo e => e
  | t => t

/-- Tag-based field-name resolution of `collectStructFields`: try the `yaml`
tag, then the `json` tag, then the declared identifier; a leading `-` in a
tag skips the field entirely (`none`). -/
def resolveFieldName (f : TField) : Option String :=
  let fromTag : String → String := fun tag =>
    if tag != "" then
      let p0 := (splitByChar ',' tag).headD ""
      if p0 == "-" then "-" else p0
    else ""
  let y := fromTag f.yamlTag
  if y == "-" then none
  else
    let n1 := y
    let n2 := if n1 == "" then fromTag f.jsonTag else n1
    if n2 == "-" then none
    else some (if n2 == "" then f.fname else n2)

/-- Whether a (dereferenced) type is a struct. -/
def tyIsStruct : Ty → Bool
  | .struc _ => true
  | _ => false

mutual

/-- `collectStructFields` of `unknown_fields.go`: recursively collects all
valid field paths of a struct type.  The Go code inserts paths into a
`map[string]bool`; the model returns them as a list whose membership is the
set the Go map holds.  Go dereferences one pointer level of the field type
and then switches on its kind; the helper functions below each treat one
such case, accepting the extra `ptrTo` level explicitly. -/
def collectStructFields : List TField → List String
  | [] => []
  | (nm, ytag, jtag, ex, an, ty) :: rest =>
    (if ¬ ex then []
     else
       match resolveFieldName (nm, ytag, jtag, ex, an, ty) with
       | none => []
       | some fieldName =>
         -- anonymous/embedded struct: fields added directly, no own prefix
         if an ∧ tyIsStruct (derefPtr ty) then anonFieldPaths ty
         else
           [fieldName]
           ++ nestedFieldPaths fieldName ty
           ++ sliceFieldPaths fieldName ty
           ++ mapFieldPaths fieldName ty)
    ++ collectStructFields rest

/-- Fields of an anonymous embedded struct (possibly behind a pointer). -/
def anonFieldPaths : Ty → List String
  | .struc fs => collectStructFields fs
  | .ptrTo (.struc fs) => collectStructFields fs
  | _ => []

/-- Nested-struct leaves, recorded under `fieldName.`. -/
def nestedFieldPaths (fieldName : String) : Ty → List String
  | .struc fs => (collectStructFields fs).map (fun n => fieldName ++ "." ++ n)
  | .ptrTo (.struc fs) => (collectStructFields fs).map (fun n => fieldName ++ "." ++ n)
  | _ => []

/-- Slice-of-struct element leaves, recorded under `fieldName[].` (the
element type is pointer-dereferenced first). -/
def sliceFieldPaths (fieldName : String) : Ty → List String
  | .sliceOf e => sliceElemPaths fieldName e
  | .ptrTo (.sliceOf e) => sliceElemPaths fieldName e
  | _ => []

def sliceElemPaths (fieldName : String) : Ty → List String
  | .struc fs => (collectStructFields fs).map (fun n => fieldName ++ "[]." ++ n)
  | .ptrTo (.struc fs) => (collectStructFields fs).map (fun n => fieldName ++ "[]." ++ n)
  | _ => []

/-- Map markers: the open-map marker `fieldName.*` always; then, for an
`interface{}` value type the open-value marker `fieldName.**`, and for a
struct value type the `fieldName.*.<nested>` leaves. -/
def mapFieldPaths (fieldName : String) : Ty → List String
  | .mapOf e => [fieldName ++ ".*"] ++ mapValuePaths fieldName e
  | .ptrTo (.mapOf e) => [fieldName ++ ".*"] ++ mapValuePaths fieldName e
  | _ => []

def mapValuePaths (fieldName : String) : Ty → List String
  | .iface => [fieldName ++ ".**"]
  | .ptrTo .iface => [fieldName ++ ".**"]
  | .struc fs => (collectStructFields fs).map (fun n => fieldName ++ ".*." ++ n)
  | .ptrTo (.struc fs) => (collectStructFields fs).map (fun n => fieldName ++ ".*." ++ n)
  | _ => []

end

/-- `getValidFields`: dereference a pointer, require a struct, collect. -/
def getValidFields (t : Ty) : List String :=
  match derefPtr t with
  | .struc fs => collectStructFields fs
  | _ => []

/-- Decoded file content as produced by unmarshalling into
`map[string]any`: an object, an array, or any scalar (string, number,
boolean, null — the detector never distinguishes scalars). -/
inductive JVal where
  | scalar : JVal
  | obj : List (String × JVal) → JVal
  | arr : List JVal → JVal

/-- `isFieldValid`: case-insensitive membership of a path in the
valid-field set. -/
def isFieldValid (fieldPath : String) (validFields : List String) : Bool :=
  validFields.any (fun validField => toLowerGo validField == toLowerGo fieldPath)

/-- `findActualFieldPath`: the exact path if present, else the first
case-insensitive match in iteration order, else the path itself. -/
def findActualFieldPath (fieldPath : String) (validFields : List String) : String :=
  if validFields.contains fieldPath then fieldPath
  else
    match validFields.find? (fun v => toLowerGo v == toLowerGo fieldPath) with
    | some v => v
    | none => fieldPath

/-- The `isValid` computation of `compareFields` for key `key` under prefix
`pfx`: exact match, case-insensitive match, open-map marker of the parent,
single-segment wildcard substitution, and the bare root-level re-check. -/
def isValidKey (pfx key : String) (validFields : List String) : Bool :=
  let fieldPath := if pfx == "" then key else pfx ++ "." ++ key
  let v1 := validFields.contains fieldPath
  let v2 := if ¬ v1 then isFieldValid fieldPath validFields else v1
  let v3 :=
    if ¬ v2 ∧ pfx != "" then
      let w := validFields.contains (pfx ++ ".*")
      if ¬ w then
        let parts := splitByChar '.' pfx
        (List.range parts.length).any (fun i =>
          validFields.contains (String.intercalate "." (parts.set i "*") ++ "." ++ key))
      else w
    else v2
  if ¬ v3 ∧ pfx == "" then
    validFields.contains key || isFieldValid key validFields
  else v3

/-- The `skipNestedValidation` computation of `compareFields`: true when the
parent prefix, or any strict ancestor prefix of the field path, carries the
open-value marker `**`. -/
def skipNestedValidation (pfx fieldPath : String) (validFields : List String) : Bool :=
  if pfx != "" && validFields.contains (pfx ++ ".**") then true
  else
    let parts := splitByChar '.' fieldPath
    (List.range parts.length).any (fun i =>
      decide (1 ≤ i) &&
      validFields.contains (String.intercalate "." (parts.take i) ++ ".**"))

/-- The recursion prefix used for a nested object: the case-resolved path,
or — when the key was accepted through the parent's open-map marker — the
path with its last segment replaced by `*`. -/
def nestedRecPfx (pfx fieldPath : String) (validFields : List String) : String :=
  let actual := findActualFieldPath fieldPath validFields
  if actual == fieldPath ∧ pfx != "" ∧ validFields.contains (pfx ++ ".*") then
    let parts := splitByChar '.' fieldPath
    String.intercalate "." (parts.set (parts.length - 1) "*")
  else actual

mutual

/-- `compareFields` of `unknown_fields.go`: recursively compares decoded
data against the valid-field set and returns unknown field paths. -/
def compareFields (pfx : String) (data : JVal) (validFields : List String) :
    List String :=
  match data with
  | .scalar => []
  | .obj entries => compareObjEntries pfx entries validFields
  | .arr items => compareArrayItems pfx items validFields

/-- The `map[string]any` case of `compareFields`: iterate the keys; an
invalid key is reported (and not descended into); a valid key descends
per `validKeyPart`. -/
def compareObjEntries (pfx : String) (entries : List (String × JVal))
    (validFields : List String) : List String :=
  match entries with
  | [] => []
  | (key, value) :: rest =>
    (if ¬ isValidKey pfx key validFields then
       [if pfx == "" then key else pfx ++ "." ++ key]
     else validKeyPart pfx key value validFields)
    ++ compareObjEntries pfx rest validFields

/-- The valid-key branch of `compareFields`: unless an open-value marker
suppresses nested validation, recurse into object values under the resolved
prefix and into array-of-object values under the `<path>[]` pattern. -/
def validKeyPart (pfx key : String) (value : JVal) (validFields : List String) :
    List String :=
  let fieldPath := if pfx == "" then key else pfx ++ "." ++ key
  if skipNestedValidation pfx fieldPath validFields then []
  else
    match value with
    | .obj nested => compareObjEntries (nestedRecPfx pfx fieldPath validFields) nested validFields
    | .arr items =>
      arrayElemUnknowns (findActualFieldPath fieldPath validFields ++ "[]") items validFields
    | .scalar => []

/-- The `[]any` case of `compareFields` (arrays at the current level):
recurse into object items, ignore all other items. -/
def compareArrayItems (pfx : String) (items : List JVal) (validFields : List String) :
    List String :=
  match items with
  | [] => []
  | item :: rest =>
    (match item with
     | .obj nested => compareObjEntries pfx nested validFields
     | _ => [])
    ++ compareArrayItems pfx rest validFields

/-- The array branch inside the valid-key case: each object item of the
array is compared against the `<path>[]` pattern. -/
def arrayElemUnknowns (pattern : String) (items : List JVal) (validFields : List String) :
    List String :=
  match items with
  | [] => []
  | item :: rest =>
    (match item with
     | .obj nested => compareObjEntries pattern nested validFields
     | _ => [])
    ++ arrayElemUnknowns pattern rest validFields

end

/-- `(*UnknownFieldsError).Error()`: each file renders as
`<file>: <field1>, <field2>` with its fields sorted, the per-file segments
are sorted, joined with `"; "` and prefixed. -/
def unknownFieldsErrorMessage (fields : List (String × List String)) : String :=
  if fields.isEmpty then "unknown fields found in configuration"
  else
    let parts := fields.map (fun fl => fl.1 ++ ": " ++ String.intercalate ", " (sortStrings fl.2))
    "unknown fields found in configuration files: " ++ String.intercalate "; " (sortStrings parts)

/-- The rendering the specification describes, written from its words: the
message equals the fixed prefix followed by one segment per file of the form
`<file>: <field1>, <field2>` with the fields of each file sorted lexically,
the segments sorted lexically, and the segments joined with `"; "`. -/
def specUnknownFieldsMessage (fields : List (String × List String)) : String :=
  "unknown fields found in configuration files: "
  ++ String.intercalate "; "
      (sortStrings (fields.map
        (fun fl => fl.1 ++ ": " ++ String.intercalate ", " (sortStrings fl.2))))

/-! ### Loader orchestration (`plugins/loader/file.go`, `xconfig.go`) -/

/-- Raw file bytes. -/
abbrev RawData := String

/-- `findUnknownFields(data, v, filepath, unmarshal)`: decode the raw bytes
into a generic `map[string]any` with the supplied unmarshal function, fall
back to `json.Unmarshal`, and if both fail return `(nil, nil)` — detection
is skipped, not failed.  The two decoders are passed as functions returning
`none` on decode failure; the error component mirrors the Go `error` return
value, which is `nil` on every path. -/
def findUnknownFields (data : RawData) (conf : Ty)
    (unmarshal jsonUnmarshal : RawData → Option (List (String × JVal))) :
    List String × Option Unit :=
  match unmarshal data with
  | some raw => (compareFields "" (.obj raw) (getValidFields conf), none)
  | none =>
    match jsonUnmarshal data with
    | some raw => (compareFields "" (.obj raw) (getValidFields conf), none)
    | none => ([], none)

/-- The aggregated unknown-field state the `Loader` retains:
`unknownFields : map[string][]string` keyed by file path. -/
structure LoaderSt where
  unknownFields : List (String × List String)
deriving DecidableEq

/-- Errors `(*walker).Parse` can return: the strict-mode
`UnknownFieldsError` (carrying its file→fields map) or a failure of the
file's primary unmarshal. -/
inductive LoadErr where
  | unknownFieldsErr : List (String × List String) → LoadErr
  | primaryDecodeErr : String → LoadErr
deriving DecidableEq

/-- One file plugin as built by `Loader.Plugins`: its path, its raw
content, and the per-file strict-mode flag. -/
structure FilePlug where
  filepath : String
  data : RawData
  disallowUnknownFields : Bool

/-- `(*walker).Parse` of `plugins/loader/file.go` for a file plugin that
carries a loader: run unknown-field detection, record a non-empty finding
in the loader's map, in strict mode return an `UnknownFieldsError` holding
only this file's findings, and otherwise run the primary unmarshal into the
config (modelled by the success predicate `primaryOk`). -/
def walkerParse (conf : Ty)
    (unmarshal jsonUnmarshal : RawData → Option (List (String × JVal)))
    (primaryOk : RawData → Bool) (w : FilePlug) (loader : LoaderSt) :
    Option LoadErr × LoaderSt :=
  let r := findUnknownFields w.data conf unmarshal jsonUnmarshal
  let primary : Option LoadErr :=
    if primaryOk w.data then none else some (.primaryDecodeErr w.filepath)
  match r.2 with
  | some _ =>
    -- "If we can't validate, just continue with unmarshaling" (dead branch:
    -- findUnknownFields never returns an error)
    (primary, loader)
  | none =>
    if r.1.length > 0 then
      let loader1 : LoaderSt := ⟨assocSet loader.unknownFields w.filepath r.1⟩
      if w.disallowUnknownFields then
        (some (.unknownFieldsErr [(w.filepath, r.1)]), loader1)
      else (primary, loader1)
    else (primary, loader)

/-- `(*config).Parse` of `xconfig.go`: call every plugin's `Parse` in
registration order and return early at the first error. -/
def configParse (conf : Ty)
    (unmarshal jsonUnmarshal : RawData → Option (List (String × JVal)))
    (primaryOk : RawData → Bool) (files : List FilePlug) (loader : LoaderSt) :
    Option LoadErr × LoaderSt :=
  match files with
  | [] => (none, loader)
  | w :: rest =>
    match walkerParse conf unmarshal jsonUnmarshal primaryOk w loader with
    | (some e, l1) => (some e, l1)
    | (none, l1) => configParse conf unmarshal jsonUnmarshal primaryOk rest l1

/-! ## Part B: flat view and coercion (`flat/flat.go`, `flat/field.go`) -/

/-! ### Models of the standard-library parsers used by `field.Set` -/

/-- The two `strconv` error kinds. -/
inductive NumErrKind where
  | errSyntax : NumErrKind
  | errRange : NumErrKind
deriving DecidableEq, Repr

/-- Errors the setters return: a `*strconv.NumError` (function name, input,
kind) or a `time.ParseDuration` error (message, input). -/
inductive SErr where
  | num : String → String → NumErrKind → SErr
  | durErr : String → String → SErr
deriving DecidableEq, Repr

/-- `strconv.ParseBool`: the exact twelve accepted strings; everything else
is a syntax error with result value `false`. -/
def goParseBool (s : String) : Bool × Option SErr :=
  if s == "1" ∨ s == "t" ∨ s == "T" ∨ s == "true" ∨ s == "TRUE" ∨ s == "True" then
    (true, none)
  else if s == "0" ∨ s == "f" ∨ s == "F" ∨ s == "false" ∨ s == "FALSE" ∨ s == "False" then
    (false, none)
  else (false, some (.num "ParseBool" s .errSyntax))

/-- Go's `lower(c) = c | 0x20` on a byte value. -/
def lowerN (n : Nat) : Nat := n ||| 32

/-- The digit/underscore state loop of `strconv.underscoreOK`: `saw` is
`^` at the beginning, `0` after a digit or base prefix, `_` after an
underscore, `!` after any other character. -/
def underscoreLoop (hex : Bool) : List Char → Char → Bool
  | [], saw => saw != '_'
  | c :: rest, saw =>
    if (decide (48 ≤ c.toNat) && decide (c.toNat ≤ 57))
       || (hex && decide (97 ≤ lowerN c.toNat) && decide (lowerN c.toNat ≤ 102)) then
      underscoreLoop hex rest '0'
    else if c == '_' then
      if saw != '0' then false else underscoreLoop hex rest '_'
    else if saw == '_' then false
    else underscoreLoop hex rest '!'

/-- `strconv.underscoreOK`: underscores may separate digits (or follow a
base prefix) but may not be adjacent to another underscore, start or end
the number. -/
def underscoreOK (s : String) : Bool :=
  let cs :=
    match s.data with
    | c :: rest => if c == '-' ∨ c == '+' then rest else c :: rest
    | [] => []
  match cs with
  | c0 :: c1 :: rest =>
    if c0 == '0' ∧ (lowerN c1.toNat == 98 ∨ lowerN c1.toNat == 111 ∨ lowerN c1.toNat == 120) then
      underscoreLoop (lowerN c1.toNat == 120) rest '0'
    else underscoreLoop false (c0 :: c1 :: rest) '^'
  | cs0 => underscoreLoop false cs0 '^'

/-- The digit-consuming loop of `strconv.ParseUint`: returns the
accumulated value, an error kind, and whether underscores were seen.  Early
returns of the Go loop (bad digit → syntax error with value 0, overflow →
range error with value `maxVal`) are mirrored exactly. -/
def parseUintDigits (base cutoff maxVal : Nat) :
    List Char → Nat → Bool → Nat × Option NumErrKind × Bool
  | [], n, us => (n, none, us)
  | c :: rest, n, us =>
    if c == '_' then parseUintDigits base cutoff maxVal rest n true
    else
      let cn := c.toNat
      let d? : Option Nat :=
        if 48 ≤ cn ∧ cn ≤ 57 then some (cn - 48)
        else if 97 ≤ lowerN cn ∧ lowerN cn ≤ 122 then some (lowerN cn - 97 + 10)
        else none
      match d? with
      | none => (0, some .errSyntax, us)
      | some d =>
        if base ≤ d then (0, some .errSyntax, us)
        else if cutoff ≤ n then (maxVal, some .errRange, us)
        else
          let n1 := n * base + d
          if maxVal < n1 then (maxVal, some .errRange, us)
          else parseUintDigits base cutoff maxVal rest n1 us

/-- `strconv.ParseUint(s, 0, 64)` as called by `setUint`/`setSliceElemUint`:
base auto-detection (`0b`/`0o`/`0x`/legacy-octal `0`), 64-bit cutoff, and
the trailing underscore validation.  The underscore skip inside the digit
loop applies because the call passes base 0. -/
def goParseUint (s : String) : Nat × Option SErr :=
  if s == "" then (0, some (.num "ParseUint" s .errSyntax))
  else
    let maxVal : Nat := 2 ^ 64 - 1
    let det : Nat × List Char :=
      match s.data with
      | '0' :: c2 :: rest =>
        if s.length ≥ 3 ∧ lowerN c2.toNat == 98 then (2, rest)
        else if s.length ≥ 3 ∧ lowerN c2.toNat == 111 then (8, rest)
        else if s.length ≥ 3 ∧ lowerN c2.toNat == 120 then (16, rest)
        else (8, c2 :: rest)
      | '0' :: [] => (8, [])
      | cs => (10, cs)
    let base := det.1
    let cutoff := maxVal / base + 1
    let r := parseUintDigits base cutoff maxVal det.2 0 false
    match r.2.1 with
    | some k => (r.1, some (.num "ParseUint" s k))
    | none =>
      if r.2.2 ∧ ¬ underscoreOK s then (0, some (.num "ParseUint" s .errSyntax))
      else (r.1, none)

/-- `strconv.ParseInt(s, 0, 64)` as called by `setInt`/`setSliceElemInt`:
strip a sign, parse the rest as unsigned at 64 bits, then clamp at the
signed 64-bit cutoff `2^63`, returning the clamped value together with a
range error when out of range. -/
def goParseInt (s : String) : Int × Option SErr :=
  if s == "" then (0, some (.num "ParseInt" s .errSyntax))
  else
    let sgn : Bool × List Char :=
      match s.data with
      | '+' :: rest => (false, rest)
      | '-' :: rest => (true, rest)
      | cs => (false, cs)
    let neg := sgn.1
    let r := goParseUint (String.mk sgn.2)
    match r.2 with
    | some (.num _ _ .errSyntax) => (0, some (.num "ParseInt" s .errSyntax))
    | some (.durErr _ _) => (0, some (.num "ParseInt" s .errSyntax))
    | _ =>
      -- a range error from ParseUint leaves un = 2^64-1 and falls through
      -- to the signed clamp below, exactly as in Go
      let un := r.1
      let cutoff : Nat := 2 ^ 63
      if ¬ neg ∧ cutoff ≤ un then ((cutoff : Int) - 1, some (.num "ParseInt" s .errRange))
      else if neg ∧ cutoff < un then (-(cutoff : Int), some (.num "ParseInt" s .errRange))
      else (if neg then -(un : Int) else (un : Int), none)

/-- `reflect.Value.SetInt` on a field of signed bit width `w`: the `int64`
is truncated to the field's width (two's complement), with no range check. -/
def signedWrap (w : Nat) (x : Int) : Int :=
  let m := x % ((2 : Int) ^ w)
  if (2 : Int) ^ (w - 1) ≤ m then m - (2 : Int) ^ w else m

/-- `reflect.Value.SetUint` on a field of unsigned bit width `w`. -/
def uintWrap (w : Nat) (n : Nat) : Nat := n % 2 ^ w

/-- Result of `strconv.ParseFloat`, kept opaque: IEEE-754 value semantics
are not modelled; a successful parse stores the accepted literal, a failed
parse stores the zero value (Go returns `0` on syntax errors).  The
overflow case (`ErrRange` with an infinity result) is not modelled. -/
inductive FloatRep where
  | zeroF : FloatRep
  | lit : String → FloatRep
deriving DecidableEq, Repr

/-- Decimal-mantissa scanner for the float syntax: digits and underscores
with an optional single dot; returns (sawDigits, rest). -/
def scanMantissa : List Char → Bool → Bool → Bool × List Char
  | [], sawDigits, _ => (sawDigits, [])
  | c :: rest, sawDigits, sawDot =>
    if decide (48 ≤ c.toNat) ∧ decide (c.toNat ≤ 57) then
      scanMantissa rest true sawDot
    else if c == '_' then scanMantissa rest sawDigits sawDot
    else if c == '.' ∧ ¬ sawDot then scanMantissa rest sawDigits true
    else (sawDigits, c :: rest)

/-- Hex-mantissa scanner (digits `0-9a-fA-F`, underscores, one dot). -/
def scanHexMantissa : List Char → Bool → Bool → Bool × List Char
  | [], sawDigits, _ => (sawDigits, [])
  | c :: rest, sawDigits, sawDot =>
    if (decide (48 ≤ c.toNat) ∧ decide (c.toNat ≤ 57))
       ∨ (97 ≤ lowerN c.toNat ∧ lowerN c.toNat ≤ 102) then
      scanHexMantissa rest true sawDot
    else if c == '_' then scanHexMantissa rest sawDigits sawDot
    else if c == '.' ∧ ¬ sawDot then scanHexMantissa rest sawDigits true
    else (sawDigits, c :: rest)

/-- Exponent scanner: optional sign then at least one digit (underscores
allowed between digits); returns whether well-formed and the rest. -/
def scanExponent : List Char → Bool × List Char
  | [] => (false, [])
  | c :: rest =>
    let ds := if c == '+' ∨ c == '-' then rest else c :: rest
    let digs := ds.takeWhile (fun d =>
      (decide (48 ≤ d.toNat) && decide (d.toNat ≤ 57)) || d == '_')
    let hasDigit := digs.any (fun d => decide (48 ≤ d.toNat) && decide (d.toNat ≤ 57))
    (hasDigit, ds.drop digs.length)

/-- Syntactic acceptance of `strconv.ParseFloat(s, 64)`: the special forms
`±inf`, `±infinity`, `nan` (case-insensitive), or a decimal literal with an
optional `e` exponent, or a hex literal `0x…` with a mandatory `p`
exponent; underscores must satisfy `underscoreOK`. -/
def goFloatSyntaxOk (s : String) : Bool :=
  let low := toLowerGo s
  if low == "inf" ∨ low == "infinity" ∨ low == "+inf" ∨ low == "+infinity"
     ∨ low == "-inf" ∨ low == "-infinity" ∨ low == "nan" then true
  else
    let cs :=
      match s.data with
      | c :: rest => if c == '+' ∨ c == '-' then rest else c :: rest
      | [] => []
    let ok :=
      match cs with
      | '0' :: x :: rest =>
        if lowerN x.toNat == 120 then
          -- hex float: mantissa then mandatory p exponent
          let m := scanHexMantissa rest false false
          match m.2 with
          | p :: erest => m.1 && (lowerN p.toNat == 112) && (scanExponent erest).1
                          && (scanExponent erest).2.isEmpty
          | [] => false
        else
          let m := scanMantissa cs false false
          match m.2 with
          | e :: erest => m.1 && (lowerN e.toNat == 101) && (scanExponent erest).1
                          && (scanExponent erest).2.isEmpty
          | [] => m.1
      | _ =>
        let m := scanMantissa cs false false
        match m.2 with
        | e :: erest => m.1 && (lowerN e.toNat == 101) && (scanExponent erest).1
                        && (scanExponent erest).2.isEmpty
        | [] => m.1
    ok && (¬ s.data.contains '_' || underscoreOK s)

/-- `strconv.ParseFloat(s, 64)` at the fidelity `field.Set` requires:
syntax decides success; the numeric value is kept opaque. -/
def goParseFloat (s : String) : FloatRep × Option SErr :=
  if goFloatSyntaxOk s then (.lit s, none)
  else (.zeroF, some (.num "ParseFloat" s .errSyntax))

/-- `time.ParseDuration` unit table (nanoseconds per unit). -/
def durUnit (u : String) : Option Nat :=
  if u == "ns" then some 1
  else if u == "us" then some 1000
  else if u == "µs" then some 1000
  else if u == "μs" then some 1000
  else if u == "ms" then some 1000000
  else if u == "s" then some 1000000000
  else if u == "m" then some 60000000000
  else if u == "h" then some 3600000000000
  else none

/-- `time.leadingInt`: consume leading decimal digits with the 2^63
overflow guard; `none` signals the overflow error. -/
def durLeadingInt : List Char → Nat → Option (Nat × List Char)
  | [], x => some (x, [])
  | c :: rest, x =>
    if decide (48 ≤ c.toNat) ∧ decide (c.toNat ≤ 57) then
      if 2 ^ 63 / 10 < x then none
      else
        let x1 := x * 10 + (c.toNat - 48)
        if 2 ^ 63 < x1 then none
        else durLeadingInt rest x1
    else some (x, c :: rest)

/-- `time.leadingFraction`: consume fractional digits, returning the value
and the power-of-ten scale (Go uses a float64 scale; the scale is exact in
the modelled range). -/
def durLeadingFraction : List Char → Nat → Nat → Bool → Nat × Nat × List Char
  | [], x, scale, _ => (x, scale, [])
  | c :: rest, x, scale, overflow =>
    if decide (48 ≤ c.toNat) ∧ decide (c.toNat ≤ 57) then
      if overflow then durLeadingFraction rest x scale true
      else if (2 ^ 63 - 1) / 10 < x then durLeadingFraction rest x scale true
      else
        let y := x * 10 + (c.toNat - 48)
        if 2 ^ 63 < y then durLeadingFraction rest x scale true
        else durLeadingFraction rest y (scale * 10) false
    else (x, scale, c :: rest)

/-- One `([0-9]*(\.[0-9]*)?[a-z]+)` component loop of `time.ParseDuration`,
with explicit fuel (each iteration consumes at least one character, so the
fuel `cs.length + 1` at the entry point is never exhausted). -/
def durLoop (orig : String) : Nat → List Char → Nat → Except SErr Nat
  | 0, _, _ => .error (.durErr "time: invalid duration" orig)
  | _ + 1, [], d => .ok d
  | fuel + 1, cs, d =>
    let c0 := cs.headD ' '
    if ¬ (c0 == '.' ∨ (decide (48 ≤ c0.toNat) ∧ decide (c0.toNat ≤ 57))) then
      .error (.durErr "time: invalid duration" orig)
    else
      match durLeadingInt cs 0 with
      | none => .error (.durErr "time: invalid duration" orig)
      | some (v, s1) =>
        let pre := s1.length != cs.length
        let fr : Nat × Nat × List Char × Bool :=
          match s1 with
          | '.' :: s2 =>
            let f := durLeadingFraction s2 0 1 false
            (f.1, f.2.1, f.2.2, f.2.2.length != s2.length)
          | _ => (0, 1, s1, false)
        let f := fr.1
        let scale := fr.2.1
        let s2 := fr.2.2.1
        let post := fr.2.2.2
        if ¬ pre ∧ ¬ post then .error (.durErr "time: invalid duration" orig)
        else
          let uchars := s2.takeWhile (fun c =>
            ¬ (c == '.' ∨ (decide (48 ≤ c.toNat) ∧ decide (c.toNat ≤ 57))))
          if uchars.length == 0 then
            .error (.durErr "time: missing unit in duration" orig)
          else
            match durUnit (String.mk uchars) with
            | none => .error (.durErr "time: unknown unit in duration" orig)
            | some unit =>
              if 2 ^ 63 / unit < v then .error (.durErr "time: invalid duration" orig)
              else
                let v1 := v * unit + f * unit / scale
                if 2 ^ 63 < v1 then .error (.durErr "time: invalid duration" orig)
                else
                  let d1 := d + v1
                  if 2 ^ 63 < d1 then .error (.durErr "time: invalid duration" orig)
                  else durLoop orig fuel (s2.drop uchars.length) d1

/-- `time.ParseDuration`: optional sign, `"0"` shortcut, then the component
loop; the result is in nanoseconds.  The float64 rounding Go applies to
fractional components is modelled by exact truncated rational arithmetic. -/
def goParseDuration (s : String) : Except SErr Int :=
  let sgn : Bool × List Char :=
    match s.data with
    | '-' :: rest => (true, rest)
    | '+' :: rest => (false, rest)
    | cs => (false, cs)
  let neg := sgn.1
  let cs := sgn.2
  if String.mk cs == "0" then .ok 0
  else if cs.isEmpty then .error (.durErr "time: invalid duration" s)
  else
    match durLoop s (cs.length + 1) cs 0 with
    | .error e => .error e
    | .ok d =>
      if neg then .ok (-(d : Int))
      else if 2 ^ 63 - 1 < d then .error (.durErr "time: invalid duration" s)
      else .ok (d : Int)

/-! ### The runtime value model and the schema walker (`flat/flat.go`) -/

/-- Element kinds of a slice field, as dispatched by `setSliceElem`:
string, (duration-)integer, unsigned, float have element setters; bool and
every other kind have none (the Go `switch` has no case for them). -/
inductive ElemKind where
  | estr : ElemKind
  | eint : Nat → Bool → ElemKind
  | euint : Nat → ElemKind
  | efloat : Nat → ElemKind
  | ebool : ElemKind
  | eother : ElemKind
deriving DecidableEq, Repr

mutual

/-- A Go runtime value at the granularity `walkStructWithParentTags` and
`field.Set` distinguish: scalars carry their kind data (bit width `w`,
`time.Duration`-ness for integers), `vslice` its element kind, `vstrukt`
its fields, `vmap` whether its value type is a struct and its entries
(`none` models a nil map), and `vother` stands for every remaining kind
(interface, func, chan, pointer, complex, array), which the walker turns
into a descriptor and `field.Set` silently ignores.  Custom
`encoding.TextUnmarshaler` types are outside the modelled universe. -/
inductive MVal where
  | vstr : String → MVal
  | vbool : Bool → MVal
  | vint : Nat → Bool → Int → MVal
  | vuint : Nat → Nat → MVal
  | vfloat : Nat → FloatRep → MVal
  | vslice : ElemKind → List MVal → MVal
  | vstrukt : List MField → MVal
  | vmap : Bool → Option (List (String × MVal)) → MVal
  | vother : String → MVal

/-- A struct field of the value model: name, `xconfig` tag
(`Tag.Lookup("xconfig")`, `none` when absent), exported flag, anonymous
flag, value. -/
inductive MField where
  | mk : String → Option String → Bool → Bool → MVal → MField

end


def MField.fname : MField → String
  | .mk n _ _ _ _ => n
def MField.xtag : MField → Option String
  | .mk _ t _ _ _ => t
def MField.exported : MField → Bool
  | .mk _ _ e _ _ => e
def MField.anon : MField → Bool
  | .mk _ _ _ a _ => a
def MField.val : MField → MVal
  | .mk _ _ _ _ v => v

/-- A storage location of a descriptor: `base = none` addresses the root
struct, `base = some i` the `i`-th addressable copy created by the walker
for a map value; `path` is the chain of struct-field indices inside that
base. -/
structure Loc where
  base : Option Nat
  path : List Nat
deriving DecidableEq, Repr

/-- One write-back step of a composed `mapSync` closure:
`SetMapIndex(key, copy src)` on the map stored at `mapLoc`. -/
structure SyncAct where
  mapLoc : Loc
  key : String
  src : Nat
deriving DecidableEq, Repr

/-- A field descriptor as produced by the walker: resolved dotted name,
storage location, and the composed write-back chain (`mapSync`), executed
left to right — earlier entries are the previously attached closures,
which Go's wrapper invokes first. -/
structure MDesc where
  name : String
  loc : Loc
  syncs : List SyncAct
deriving DecidableEq, Repr

/-- The fields of a struct value (the walker only reaches this for values
whose kind is `Struct`). -/
def structFieldsOfVal : MVal → List MField
  | .vstrukt fs => fs
  | _ => []

/-- The resolved name of a leaf field: the `xconfig` tag override when
present and non-empty, else the declared identifier. -/
def leafFieldName (f : MField) : String :=
  match f.xtag with
  | some n => if n != "" then n else f.fname
  | none => f.fname

mutual

/-- `walkStructWithParentTags` of `flat/flat.go`: walk the fields of a
struct located at `loc` (whose field list is `flds`, with `idx` the
reflection index of the first one), producing descriptors and threading
the list of addressable copies.  Struct fields recurse (anonymous ones
without adding a path segment), map fields with struct values are handled
per key by `walkMapEntries`, nil maps and maps with non-struct values are
skipped, and every other field becomes a leaf descriptor.  Parent tags and
the metadata bag are not modelled (no claim concerns them). -/
def walkFields (pfx : String) (flds : List MField) (idx : Nat) (loc : Loc)
    (copies : List MVal) : List MDesc × List MVal :=
  match flds with
  | [] => ([], copies)
  | .mk fname xtag ex an fval :: rest =>
    if ¬ ex then walkFields pfx rest (idx + 1) loc copies
    else
      match fval with
      | .vstrukt inner =>
        let structPfx :=
          if an then pfx
          else if pfx == "" then fname
          else pfx ++ "." ++ fname
        let r1 := walkFields structPfx inner 0 ⟨loc.base, loc.path ++ [idx]⟩ copies
        let r2 := walkFields pfx rest (idx + 1) loc r1.2
        (r1.1 ++ r2.1, r2.2)
      | .vmap elemIsStruct entriesOpt =>
        match entriesOpt with
        | none => walkFields pfx rest (idx + 1) loc copies
        | some entries =>
          if elemIsStruct then
            let mapPfx := if pfx == "" then fname else pfx ++ "." ++ fname
            let r1 := walkMapEntries mapPfx entries ⟨loc.base, loc.path ++ [idx]⟩ copies
            let r2 := walkFields pfx rest (idx + 1) loc r1.2
            (r1.1 ++ r2.1, r2.2)
          else walkFields pfx rest (idx + 1) loc copies
      | _ =>
        let fieldName := leafFieldName (.mk fname xtag ex an fval)
        let fullName := if pfx == "" then fieldName else pfx ++ "." ++ fieldName
        let r2 := walkFields pfx rest (idx + 1) loc copies
        (⟨fullName, ⟨loc.base, loc.path ++ [idx]⟩, []⟩ :: r2.1, r2.2)

/-- The map-of-struct handling of `walkStructWithParentTags`: for each key
an addressable copy of the value is appended to the copy store and walked;
every resulting descriptor then has the write-back for this map appended
after its previously attached chain (Go wraps the old closure so that it
runs first). -/
def walkMapEntries (mapPfx : String) (entries : List (String × MVal)) (mapLoc : Loc)
    (copies : List MVal) : List MDesc × List MVal :=
  match entries with
  | [] => ([], copies)
  | (k, v) :: rest =>
    let copyIdx := copies.length
    let r1 := walkCopy (mapPfx ++ "." ++ k) v copyIdx (copies ++ [v])
    let wrapped := r1.1.map (fun d => ⟨d.name, d.loc, d.syncs ++ [⟨mapLoc, k, copyIdx⟩]⟩)
    let r2 := walkMapEntries mapPfx rest mapLoc r1.2
    (wrapped ++ r2.1, r2.2)

/-- Walk the addressable copy of one map value (always a struct when
reached: the map case fires only for struct-valued maps). -/
def walkCopy (keyPfx : String) (v : MVal) (copyIdx : Nat) (copies : List MVal) :
    List MDesc × List MVal :=
  match v with
  | .vstrukt vfs => walkFields keyPfx vfs 0 ⟨some copyIdx, []⟩ copies
  | _ => ([], copies)

end

/-- `flat.View` for a root struct value: walk with empty prefix from the
root location with no copies. -/
def viewStruct (rootFields : List MField) : List MDesc × List MVal :=
  walkFields "" rootFields 0 ⟨none, []⟩ []

/-! ### Mutable state and `field.Set` (`flat/field.go`) -/

/-- The mutable store a walk's descriptors point into: the root struct
value and the addressable copies created for map values. -/
structure WState where
  root : MVal
  copies : List MVal

mutual

/-- Read the value at a field-index path. -/
def getAtPath : MVal → List Nat → Option MVal
  | v, [] => some v
  | .vstrukt flds, i :: rest => getFieldPath flds i rest
  | _, _ :: _ => none

def getFieldPath : List MField → Nat → List Nat → Option MVal
  | [], _, _ => none
  | .mk _ _ _ _ v :: _, 0, rest => getAtPath v rest
  | _ :: fs, n + 1, rest => getFieldPath fs n rest

end

mutual

/-- Apply `g` to the value at a field-index path (identity when the path
does not exist). -/
def updAtPath : MVal → List Nat → (MVal → MVal) → MVal
  | v, [], g => g v
  | .vstrukt flds, i :: rest, g => .vstrukt (updFieldPath flds i rest g)
  | v, _ :: _, _ => v

def updFieldPath : List MField → Nat → List Nat → (MVal → MVal) → List MField
  | [], _, _, _ => []
  | .mk n t e a v :: fs, 0, rest, g => .mk n t e a (updAtPath v rest g) :: fs
  | f :: fs, n + 1, rest, g => f :: updFieldPath fs n rest g

end

/-- Read the value a location addresses. -/
def getAtLoc (st : WState) (loc : Loc) : Option MVal :=
  match loc.base with
  | none => getAtPath st.root loc.path
  | some i =>
    match st.copies[i]? with
    | some c => getAtPath c loc.path
    | none => none

/-- Apply `g` to the value a location addresses. -/
def updAtLoc (st : WState) (loc : Loc) (g : MVal → MVal) : WState :=
  match loc.base with
  | none => ⟨updAtPath st.root loc.path g, st.copies⟩
  | some i =>
    ⟨st.root, st.copies.set i (updAtPath (st.copies.getD i (.vother "missing")) loc.path g)⟩

/-- One step of a composed `mapSync` closure: re-insert the current
contents of copy `src` into the map at `mapLoc` under `key`
(`mapValue.SetMapIndex(mapKey, syncVal)`). -/
def applySync (st : WState) (a : SyncAct) : WState :=
  let cur := st.copies.getD a.src (.vother "missing")
  updAtLoc st a.mapLoc (fun m =>
    match m with
    | .vmap b (some es) => .vmap b (assocSet es a.key cur)
    | v => v)

/-- Run a composed `mapSync` chain, earlier (inner) closures first. -/
def runSyncs (st : WState) (acts : List SyncAct) : WState := acts.foldl applySync st

/-- `setSliceElem` of `flat/field.go`: the per-element setter for a slice
element kind, or `none` when the kind has no case (then `setSlice` returns
`nil` without touching the field).  Each setter receives the current
element value and returns the new element plus the error; the integer
family writes the parsed value before returning the error, the duration
setter checks the error first. -/
def setSliceElemFn (ek : ElemKind) : Option (String → MVal → Option SErr × MVal) :=
  match ek with
  | .estr => some (fun s _ => (none, .vstr s))
  | .eint w true => some (fun s old =>
      match goParseDuration s with
      | .error e => (some e, old)
      | .ok d => (none, .vint w true (signedWrap w d)))
  | .eint w false => some (fun s _ =>
      let r := goParseInt s
      (r.2, .vint w false (signedWrap w r.1)))
  | .euint w => some (fun s _ =>
      let r := goParseUint s
      (r.2, .vuint w (uintWrap w r.1)))
  | .efloat w => some (fun s _ =>
      let r := goParseFloat s
      (r.2, .vfloat w r.1))
  | .ebool => none
  | .eother => none

/-- The zero value `reflect.MakeSlice` fills new elements with. -/
def zeroElem : ElemKind → MVal
  | .estr => .vstr ""
  | .eint w d => .vint w d 0
  | .euint w => .vuint w 0
  | .efloat w => .vfloat w .zeroF
  | .ebool => .vbool false
  | .eother => .vother "zero"

/-- Go `unicode.IsSpace` on the characters configuration values contain
(ASCII whitespace plus NEL and NBSP). -/
def goIsSpace (c : Char) : Bool :=
  c == ' ' ∨ c == '\t' ∨ c == '\n' ∨ c == '\x0b' ∨ c == '\x0c' ∨ c == '\r'
  ∨ c.toNat == 133 ∨ c.toNat == 160

/-- Go `strings.TrimSpace`. -/
def goTrimSpace (s : String) : String :=
  String.mk (((s.data.dropWhile goIsSpace).reverse.dropWhile goIsSpace).reverse)

/-- The element loop of `setSlice`: set elements left to right (each input
trimmed), stopping at the first error; later elements keep the zero value
the freshly made slice was filled with. -/
def setSliceElems (fn : String → MVal → Option SErr × MVal) :
    List String → List MVal → Option SErr × List MVal
  | [], elems => (none, elems)
  | _ :: _, [] => (none, [])
  | s :: srest, e0 :: erest =>
    let r := fn (goTrimSpace s) e0
    match r.1 with
    | some er => (some er, r.2 :: erest)
    | none =>
      let rr := setSliceElems fn srest erest
      (rr.1, r.2 :: rr.2)

/-- The kind switch of `field.Set`: coerce the string into the current
value.  String stores verbatim; bool/int/uint/float store the parse result
and then return the parse error (mirroring `f.field.SetX(v); return err`);
duration-typed integers check the error before storing; slices are
replaced by a freshly allocated element-wise converted slice (or silently
left alone when the element kind has no setter); kinds with no case in the
switch — struct, map, interface, func, chan, pointer, complex, array —
return no error and leave the value unchanged. -/
def coerceVal (v : MVal) (s : String) : Option SErr × MVal :=
  match v with
  | .vstr _ => (none, .vstr s)
  | .vbool _ =>
    let r := goParseBool s
    (r.2, .vbool r.1)
  | .vint w true old =>
    (match goParseDuration s with
     | .error e => (some e, .vint w true old)
     | .ok d => (none, .vint w true (signedWrap w d)))
  | .vint w false _ =>
    let r := goParseInt s
    (r.2, .vint w false (signedWrap w r.1))
  | .vuint w _ =>
    let r := goParseUint s
    (r.2, .vuint w (uintWrap w r.1))
  | .vfloat w _ =>
    let r := goParseFloat s
    (r.2, .vfloat w r.1)
  | .vslice ek items =>
    (match setSliceElemFn ek with
     | none => (none, .vslice ek items)
     | some fn =>
       let values := splitByChar ',' s
       let r := setSliceElems fn values (values.map (fun _ => zeroElem ek))
       (r.1, .vslice ek r.2))
  | v => (none, v)

/-- `field.Set`: coerce into the storage the descriptor addresses, then —
only when no error occurred — fire the composed `mapSync` chain.  (On the
error paths where the Go setter did not write, `coerceVal` returns the old
value, so writing it back is the identity.) -/
def fieldSet (st : WState) (d : MDesc) (s : String) : Option SErr × WState :=
  match getAtLoc st d.loc with
  | none => (none, st)
  | some v =>
    let r := coerceVal v s
    let st1 := updAtLoc st d.loc (fun _ => r.2)
    match r.1 with
    | none => (none, runSyncs st1 d.syncs)
    | some e => (some e, st1)

/-! ### Proof scaffolding: closed forms of walker output -/

/-- A leaf kind for the walker: neither a struct nor a map (those get
special branches); every other kind lands in the descriptor branch. -/
def isLeafB : MVal → Bool
  | .vstrukt _ => false
  | .vmap _ _ => false
  | _ => true

/-- Closed form of the descriptors a walk of leaf-only fields produces. -/
def flatDescs (pfx : String) : List MField → Nat → Loc → List MDesc
  | [], _, _ => []
  | .mk n t e a v :: rest, idx, loc =>
    (if e then
      [⟨(if pfx == "" then leafFieldName (.mk n t e a v)
         else pfx ++ "." ++ leafFieldName (.mk n t e a v)),
        ⟨loc.base, loc.path ++ [idx]⟩, []⟩]
     else [])
    ++ flatDescs pfx rest (idx + 1) loc

/-- Closed form of the wrapped descriptors `walkMapEntries` produces for
flat struct values, with `cidx` the index of the next fresh copy. -/
def flatMapDescs (mapPfx : String) : List (String × MVal) → Loc → Nat → List MDesc
  | [], _, _ => []
  | (k, v) :: rest, mapLoc, cidx =>
    ((flatDescs (mapPfx ++ "." ++ k) (structFieldsOfVal v) 0 ⟨some cidx, []⟩).map
      (fun d => ⟨d.name, d.loc, d.syncs ++ [⟨mapLoc, k, cidx⟩]⟩))
    ++ flatMapDescs mapPfx rest mapLoc (cidx + 1)

/-! ## Theorems -/

/-! ### Helper lemmas shared across claims -/

/-- Setting a list index to the element it already holds is the identity. -/
theorem list_set_self {α : Type} : ∀ (l : List α) (i : Nat) (c : α),
    l[i]? = some c → l.set i c = l := by
  intro l
  induction l with
  | nil => intro i c h; simp at h
  | cons a tl ih =>
    intro i c h
    match i with
    | 0 => simp at h; simp [List.set, h]
    | j + 1 => simp at h; simp [List.set, ih j c h]

/-- Writing back the value a path already holds is the identity. -/
theorem updAtPath_self : ∀ (p : List Nat) (m v : MVal),
    getAtPath m p = some v → updAtPath m p (fun _ => v) = m := by
  intro p
  induction p with
  | nil => intro m v h; simp [getAtPath] at h; simp [updAtPath, h]
  | cons i rest ih =>
    intro m v h
    match m with
    | .vstr _ | .vbool _ | .vint _ _ _ | .vuint _ _ | .vfloat _ _ | .vslice _ _
    | .vmap _ _ | .vother _ => simp [getAtPath] at h
    | .vstrukt flds =>
      simp only [getAtPath] at h
      simp only [updAtPath]
      congr 1
      induction flds generalizing i with
      | nil => simp [getFieldPath] at h
      | cons f fs ihf =>
        match f, i with
        | .mk n t e a fv, 0 =>
          simp only [getFieldPath] at h
          simp only [updFieldPath, ih fv v h]
        | .mk n t e a fv, j + 1 =>
          simp only [getFieldPath] at h
          simp only [updFieldPath, ihf j h]

/-- Writing back the value a location already holds is the identity. -/
theorem updAtLoc_self (st : WState) (loc : Loc) (v : MVal)
    (h : getAtLoc st loc = some v) : updAtLoc st loc (fun _ => v) = st := by
  match st, loc with
  | ⟨root, copies⟩, ⟨none, p⟩ =>
    simp only [getAtLoc] at h
    simp [updAtLoc, updAtPath_self p root v h]
  | ⟨root, copies⟩, ⟨some i, p⟩ =>
    simp only [getAtLoc] at h
    simp only [updAtLoc]
    match hc : copies[i]? with
    | none => rw [hc] at h; simp at h
    | some c =>
      rw [hc] at h
      have hd : copies.getD i (.vother "missing") = c := by
        simp [List.getD, hc]
      rw [hd, updAtPath_self p c v h, list_set_self copies i c hc]

/-- `findUnknownFields` never returns an error. -/
theorem findUnknownFields_err_none (data : RawData) (conf : Ty)
    (um jd : RawData → Option (List (String × JVal))) :
    (findUnknownFields data conf um jd).2 = none := by
  unfold findUnknownFields
  match um data with
  | some _ => rfl
  | none => match jd data with
    | some _ => rfl
    | none => rfl

/-- `goParseBool` on any string outside the accepted twelve returns `false`
together with the `ParseBool` syntax error. -/
theorem goParseBool_failure (s : String) (h : (goParseBool s).2 ≠ none) :
    goParseBool s = (false, some (.num "ParseBool" s .errSyntax)) := by
  by_cases h1 : s == "1" ∨ s == "t" ∨ s == "T" ∨ s == "true" ∨ s == "TRUE" ∨ s == "True"
  · exfalso
    unfold goParseBool at h
    rw [if_pos h1] at h
    exact h rfl
  · by_cases h2 : s == "0" ∨ s == "f" ∨ s == "F" ∨ s == "false" ∨ s == "FALSE" ∨ s == "False"
    · exfalso
      unfold goParseBool at h
      rw [if_neg h1, if_pos h2] at h
      exact h rfl
    · unfold goParseBool
      rw [if_neg h1, if_neg h2]

/-! ### C2 -/

/-- C2 counterexample: the claim says a failed coercion leaves the stored
value exactly as before the call.  For the walker's descriptor of a `bool`
field currently holding `true`, `Set("nope")` returns the `ParseBool`
syntax error but stores `false` (Go runs `f.field.SetBool(v)` before
checking the error), so the field does not keep its prior value. -/
theorem c2_bool_overwritten_on_failure_counterexample :
    (viewStruct [.mk "GoHard" none true false (.vbool true)]).1
      = [⟨"GoHard", ⟨none, [0]⟩, []⟩]
    ∧ fieldSet ⟨.vstrukt [.mk "GoHard" none true false (.vbool true)],
          (viewStruct [.mk "GoHard" none true false (.vbool true)]).2⟩
        ⟨"GoHard", ⟨none, [0]⟩, []⟩ "nope"
      = (some (.num "ParseBool" "nope" .errSyntax),
         ⟨.vstrukt [.mk "GoHard" none true false (.vbool false)], []⟩)
    ∧ MVal.vbool false ≠ MVal.vbool true :=
  ⟨rfl, rfl, fun h => Bool.noConfusion (MVal.vbool.inj h)⟩

/-- C2 amended: on malformed input `Set` returns a kind-specific parse
error, but the field is not always left unmodified: a boolean field is
overwritten with `false` (the parse function's partial result); only the
duration path checks the error before storing and leaves the field — and
hence the whole state — unchanged. -/
theorem c2_parse_error_field_not_preserved :
    (∀ (st : WState) (d : MDesc) (s : String) (b : Bool),
        getAtLoc st d.loc = some (.vbool b) → (goParseBool s).2 ≠ none →
        fieldSet st d s =
          (some (.num "ParseBool" s .errSyntax),
           updAtLoc st d.loc (fun _ => .vbool false)))
    ∧ (∀ (st : WState) (d : MDesc) (s : String) (w : Nat) (old : Int) (e : SErr),
        getAtLoc st d.loc = some (.vint w true old) → goParseDuration s = .error e →
        fieldSet st d s = (some e, st)) := by
  constructor
  · intro st d s b hloc hfail
    have hb := goParseBool_failure s hfail
    simp [fieldSet, hloc, coerceVal, hb]
  · intro st d s w old e hloc hdur
    have hself := updAtLoc_self st d.loc (.vint w true old) hloc
    simp [fieldSet, hloc, coerceVal, hdur, hself]

/-- C2 witness: instantiating the amended theorem at a concrete bool field
holding `true` with input `"zz"`, and at a duration field with input `"zz"`. -/
theorem c2_parse_error_field_not_preserved_witness :
    fieldSet ⟨.vstrukt [.mk "B" none true false (.vbool true)], []⟩
        ⟨"B", ⟨none, [0]⟩, []⟩ "zz"
      = (some (.num "ParseBool" "zz" .errSyntax),
         updAtLoc ⟨.vstrukt [.mk "B" none true false (.vbool true)], []⟩
           ⟨none, [0]⟩ (fun _ => .vbool false))
    ∧ fieldSet ⟨.vstrukt [.mk "D" none true false (.vint 64 true 7)], []⟩
        ⟨"D", ⟨none, [0]⟩, []⟩ "zz"
      = (some (.durErr "time: invalid duration" "zz"),
         ⟨.vstrukt [.mk "D" none true false (.vint 64 true 7)], []⟩) :=
  ⟨c2_parse_error_field_not_preserved.1
      ⟨.vstrukt [.mk "B" none true false (.vbool true)], []⟩
      ⟨"B", ⟨none, [0]⟩, []⟩ "zz" true (by rfl) (by decide),
   c2_parse_error_field_not_preserved.2
      ⟨.vstrukt [.mk "D" none true false (.vint 64 true 7)], []⟩
      ⟨"D", ⟨none, [0]⟩, []⟩ "zz" 64 7 (.durErr "time: invalid duration" "zz")
      (by rfl) (by rfl)⟩

/-! ### C5 -/

/-- C5 counterexample: the claim says `Set` on an unsupported kind fails
with an "unsupported kind" error.  For the walker's descriptor of an
interface-kind field (such as an `error` field), `Set("x")` returns `nil`
and leaves the state untouched: the Go kind switch has no case for these
kinds and no default, so no error of any kind is produced. -/
theorem c5_unsupported_kind_no_error_counterexample :
    (viewStruct [.mk "Second" none true false (.vother "interface")]).1
      = [⟨"Second", ⟨none, [0]⟩, []⟩]
    ∧ fieldSet ⟨.vstrukt [.mk "Second" none true false (.vother "interface")], []⟩
        ⟨"Second", ⟨none, [0]⟩, []⟩ "x"
      = (none, ⟨.vstrukt [.mk "Second" none true false (.vother "interface")], []⟩) :=
  ⟨rfl, rfl⟩

/-- C5 amended: `Set` on a kind with no coercion rule (struct, func, chan,
interface, pointer, complex, array) silently succeeds: it returns no error,
leaves the stored value unchanged, and — because the error is `nil` — still
fires the composed write-back chain. -/
theorem c5_unsupported_kind_silently_succeeds
    (st : WState) (d : MDesc) (s : String) (nm : String)
    (hloc : getAtLoc st d.loc = some (.vother nm)) :
    fieldSet st d s = (none, runSyncs st d.syncs) := by
  have hself := updAtLoc_self st d.loc (.vother nm) hloc
  simp [fieldSet, hloc, coerceVal, hself]

/-- C5 witness. -/
theorem c5_unsupported_kind_silently_succeeds_witness :
    fieldSet ⟨.vstrukt [.mk "F" none true false (.vother "func")], []⟩
        ⟨"F", ⟨none, [0]⟩, []⟩ "anything"
      = (none, runSyncs ⟨.vstrukt [.mk "F" none true false (.vother "func")], []⟩ []) :=
  c5_unsupported_kind_silently_succeeds
    ⟨.vstrukt [.mk "F" none true false (.vother "func")], []⟩
    ⟨"F", ⟨none, [0]⟩, []⟩ "anything" "func" (by rfl)

/-! ### C6 -/

/-- C6 counterexample: the claim says an input exceeding the field's
declared bit width (e.g. `"300"` into an 8-bit field) fails with a range
error.  The code parses with `strconv.ParseInt(value, 0, 64)` — always at
64 bits — and `reflect.Value.SetInt` truncates, so `"300"` is accepted
without any error and stored as `44`. -/
theorem c6_int8_300_truncated_counterexample :
    (viewStruct [.mk "Port" none true false (.vint 8 false 0)]).1
      = [⟨"Port", ⟨none, [0]⟩, []⟩]
    ∧ fieldSet ⟨.vstrukt [.mk "Port" none true false (.vint 8 false 0)], []⟩
        ⟨"Port", ⟨none, [0]⟩, []⟩ "300"
      = (none, ⟨.vstrukt [.mk "Port" none true false (.vint 8 false 44)], []⟩)
    ∧ goParseInt "300" = (300, none)
    ∧ signedWrap 8 300 = 44 :=
  ⟨rfl, rfl, by decide, by decide⟩

/-- C6 amended: integer fields parse with base auto-detection at a fixed
64-bit width regardless of the declared width `w`; any successfully parsed
64-bit value is accepted and stored truncated to `w` bits (two's
complement), with no range error at the field's width. -/
theorem c6_int_parse_fixed_64_width
    (st : WState) (d : MDesc) (s : String) (w : Nat) (old v : Int)
    (hloc : getAtLoc st d.loc = some (.vint w false old))
    (hparse : goParseInt s = (v, none)) :
    fieldSet st d s =
      (none, runSyncs (updAtLoc st d.loc (fun _ => .vint w false (signedWrap w v)))
        d.syncs) := by
  simp [fieldSet, hloc, coerceVal, hparse]

/-- C6 witness: `"300"` into an 8-bit field stores `signedWrap 8 300 = 44`
and reports success. -/
theorem c6_int_parse_fixed_64_width_witness :
    fieldSet ⟨.vstrukt [.mk "Port" none true false (.vint 8 false 0)], []⟩
        ⟨"Port", ⟨none, [0]⟩, []⟩ "300"
      = (none, runSyncs (updAtLoc ⟨.vstrukt [.mk "Port" none true false (.vint 8 false 0)], []⟩
          ⟨none, [0]⟩ (fun _ => .vint 8 false (signedWrap 8 300))) [])
    ∧ signedWrap 8 300 = 44 :=
  ⟨c6_int_parse_fixed_64_width
      ⟨.vstrukt [.mk "Port" none true false (.vint 8 false 0)], []⟩
      ⟨"Port", ⟨none, [0]⟩, []⟩ "300" 8 0 300 (by rfl) (by decide),
   by decide⟩

/-! ### C7 -/

/-- C7: when neither the supplied decoder nor the JSON fallback can decode
the raw bytes into a generic keyed map, `findUnknownFields` returns an
empty result and no error, and the file plugin's `Parse` neither records
unknown fields nor fails detection: its outcome is exactly the outcome of
the primary unmarshal. -/
theorem c7_undecodable_detection_skipped
    (conf : Ty) (um jd : RawData → Option (List (String × JVal)))
    (pok : RawData → Bool) (w : FilePlug) (loader : LoaderSt)
    (hum : um w.data = none) (hjd : jd w.data = none) :
    findUnknownFields w.data conf um jd = ([], none)
    ∧ walkerParse conf um jd pok w loader =
        ((if pok w.data then none else some (.primaryDecodeErr w.filepath)), loader) := by
  have hf : findUnknownFields w.data conf um jd = ([], none) := by
    unfold findUnknownFields
    rw [hum, hjd]
  refine ⟨hf, ?_⟩
  unfold walkerParse
  rw [hf]
  simp

/-- C7 witness: with both decoders failing on the concrete file, `Parse`
succeeds (the primary unmarshal succeeding) and the loader stays empty. -/
theorem c7_undecodable_detection_skipped_witness :
    findUnknownFields "raw-bytes" (.struc [("A", "", "", true, false, .prim)])
        (fun _ => none) (fun _ => none) = ([], none)
    ∧ walkerParse (.struc [("A", "", "", true, false, .prim)])
        (fun _ => none) (fun _ => none) (fun _ => true)
        ⟨"app.toml", "raw-bytes", true⟩ ⟨[]⟩
      = ((if true then none else some (.primaryDecodeErr "app.toml")), ⟨[]⟩) :=
  c7_undecodable_detection_skipped
    (.struc [("A", "", "", true, false, .prim)])
    (fun _ => none) (fun _ => none) (fun _ => true)
    ⟨"app.toml", "raw-bytes", true⟩ ⟨[]⟩ rfl rfl

/-! ### C8 -/

/-- C8: for every non-empty file-to-unknown-fields map, the strict-mode
error message equals the specification's rendering: the fixed prefix, one
`<file>: <field1>, <field2>` segment per file with that file's fields
sorted lexically, the segments sorted lexically and joined with `"; "`. -/
theorem c8_error_message_format (fields : List (String × List String))
    (h : fields ≠ []) :
    unknownFieldsErrorMessage fields = specUnknownFieldsMessage fields := by
  match fields with
  | [] => exact absurd rfl h
  | fl :: rest => rfl

/-- C8 witness: the message for a concrete two-file map, with fields and
segments sorted. -/
theorem c8_error_message_format_witness :
    unknownFieldsErrorMessage [("config.json", ["field2", "field1"]), ("app.json", ["field3"])]
      = specUnknownFieldsMessage [("config.json", ["field2", "field1"]), ("app.json", ["field3"])]
    ∧ specUnknownFieldsMessage [("config.json", ["field2", "field1"]), ("app.json", ["field3"])]
      = "unknown fields found in configuration files: app.json: field3; config.json: field1, field2" :=
  ⟨c8_error_message_format [("config.json", ["field2", "field1"]), ("app.json", ["field3"])]
     (by decide), by decide⟩

/-! ### C1 -/

/-- C1 counterexample: two strict-mode files both carry unknown fields
(`bad1` in the first file, `bad2` in the second), yet the error returned by
the load carries only the first file's findings — the second file is never
processed, its findings appear neither in the error nor in the loader. -/
theorem c1_error_reports_first_file_only_counterexample :
    configParse (.struc [("Version", "version", "", true, false, .prim)])
        (fun d => if d == "D1" then some [("bad1", .scalar)] else some [("bad2", .scalar)])
        (fun _ => none) (fun _ => true)
        [⟨"f1.json", "D1", true⟩, ⟨"f2.json", "D2", true⟩] ⟨[]⟩
      = (some (.unknownFieldsErr [("f1.json", ["bad1"])]), ⟨[("f1.json", ["bad1"])]⟩)
    ∧ (findUnknownFields "D2" (.struc [("Version", "version", "", true, false, .prim)])
        (fun d => if d == "D1" then some [("bad1", .scalar)] else some [("bad2", .scalar)])
        (fun _ => none)).1 = ["bad2"] :=
  ⟨rfl, rfl⟩

/-- C1 amended: in strict mode the load fails at the first file whose
detection finds unknown fields; the returned error carries only that
file's findings, later files are not processed, and the loader has
recorded only the files up to and including the first offending one. -/
theorem c1_strict_error_carries_first_offending_file_only
    (conf : Ty) (um jd : RawData → Option (List (String × JVal)))
    (pok : RawData → Bool) (ws1 : List FilePlug) (w : FilePlug)
    (ws2 : List FilePlug) (loader : LoaderSt)
    (hclean : ∀ w2 ∈ ws1, (findUnknownFields w2.data conf um jd).1 = []
                ∧ pok w2.data = true)
    (hbad : (findUnknownFields w.data conf um jd).1 ≠ [])
    (hstrict : w.disallowUnknownFields = true) :
    configParse conf um jd pok (ws1 ++ w :: ws2) loader =
      (some (.unknownFieldsErr [(w.filepath, (findUnknownFields w.data conf um jd).1)]),
       ⟨assocSet loader.unknownFields w.filepath (findUnknownFields w.data conf um jd).1⟩) := by
  induction ws1 generalizing loader with
  | nil =>
    simp only [List.nil_append, configParse]
    have herr := findUnknownFields_err_none w.data conf um jd
    unfold walkerParse
    have hlen : (findUnknownFields w.data conf um jd).1.length > 0 :=
      List.length_pos.mpr hbad
    rcases hfu : findUnknownFields w.data conf um jd with ⟨u, e⟩
    rw [hfu] at herr hlen
    simp only at herr hlen
    subst herr
    simp [hlen, hstrict, hfu]
  | cons w2 ws1t ih =>
    have h2 := hclean w2 (List.mem_cons_self w2 ws1t)
    have hrest : ∀ w3 ∈ ws1t, (findUnknownFields w3.data conf um jd).1 = []
        ∧ pok w3.data = true :=
      fun w3 hm => hclean w3 (List.mem_cons_of_mem w2 hm)
    simp only [List.cons_append, configParse]
    have herr := findUnknownFields_err_none w2.data conf um jd
    unfold walkerParse
    rcases hfu : findUnknownFields w2.data conf um jd with ⟨u, e⟩
    rw [hfu] at herr h2
    simp only at herr
    subst herr
    have hu : u = [] := h2.1
    subst hu
    simp [h2.2, ih loader hrest]

/-- C1 witness: one clean file followed by an offending strict-mode file;
the load error names only the offending file. -/
theorem c1_strict_error_carries_first_offending_file_only_witness :
    configParse (.struc [("Version", "version", "", true, false, .prim)])
        (fun d => if d == "OK" then some [("version", .scalar)] else some [("oops", .scalar)])
        (fun _ => none) (fun _ => true)
        ([⟨"a.json", "OK", true⟩] ++ ⟨"b.json", "BAD", true⟩ :: [⟨"c.json", "BAD", true⟩]) ⟨[]⟩
      = (some (.unknownFieldsErr [("b.json",
           (findUnknownFields "BAD" (.struc [("Version", "version", "", true, false, .prim)])
             (fun d => if d == "OK" then some [("version", .scalar)] else some [("oops", .scalar)])
             (fun _ => none)).1)]),
         ⟨assocSet [] "b.json"
           (findUnknownFields "BAD" (.struc [("Version", "version", "", true, false, .prim)])
             (fun d => if d == "OK" then some [("version", .scalar)] else some [("oops", .scalar)])
             (fun _ => none)).1⟩) :=
  c1_strict_error_carries_first_offending_file_only
    (.struc [("Version", "version", "", true, false, .prim)])
    (fun d => if d == "OK" then some [("version", .scalar)] else some [("oops", .scalar)])
    (fun _ => none) (fun _ => true)
    [⟨"a.json", "OK", true⟩] ⟨"b.json", "BAD", true⟩ [⟨"c.json", "BAD", true⟩] ⟨[]⟩
    (by intro w2 hm; simp at hm; subst hm; exact ⟨by rfl, rfl⟩)
    (by intro h; exact absurd (congrArg List.length h) (by decide))
    rfl

/-! ### C3 -/

/-- C3 counterexample: the claim says a key path is never reported unknown
when any ancestor prefix of that path matches an open-map entry of the
valid-field set.  For the schema `struct { M map[string]Sub }` with
`Sub { A }`, the valid-field set contains the open-map entry `m.*`, yet the
payload `{m: {k: {bad: 1}}}` is reported with `m.*.bad` — a path whose
ancestor prefixes `m` and `m.*` match that open-map entry: inner fields of
struct-valued open-map entries are still validated and reported. -/
theorem c3_reported_beneath_open_map_counterexample :
    getValidFields (.struc [("M", "m", "", true, false,
        .mapOf (.struc [("A", "a", "", true, false, .prim)]))])
      = ["m", "m.*", "m.*.a"]
    ∧ compareFields "" (.obj [("m", .obj [("k", .obj [("bad", .scalar)])])])
        ["m", "m.*", "m.*.a"]
      = ["m.*.bad"] :=
  ⟨rfl, rfl⟩

/-- A key under a non-root prefix whose open-map marker is in the set is
always accepted by the validity check. -/
theorem isValidKey_of_openMap (pfx key : String) (V : List String)
    (hne : (pfx == "") = false) (hstar : V.contains (pfx ++ ".*") = true) :
    isValidKey pfx key V = true := by
  have hne2 : ¬ pfx = "" := by
    intro h
    subst h
    simp at hne
  unfold isValidKey
  simp only [hne, Bool.false_eq_true, if_false, bne_iff_ne, ne_eq]
  split
  · split
    · simp_all
    · simp_all
  · simp_all

/-- The nested-validation skip fires whenever the parent prefix carries the
open-value marker. -/
theorem skipNested_of_openValue (pfx fp : String) (V : List String)
    (hne : (pfx == "") = false) (hdd : V.contains (pfx ++ ".**") = true) :
    skipNestedValidation pfx fp V = true := by
  have hne2 : ¬ pfx = "" := by
    intro h
    subst h
    simp at hne
  unfold skipNestedValidation
  simp [hne, hdd]
  exact Or.inl ⟨hne2, List.mem_of_elem_eq_true hdd⟩

/-- Under an open-value prefix the valid-key branch descends nowhere. -/
theorem validKeyPart_of_openValue (pfx key : String) (v : JVal) (V : List String)
    (hne : (pfx == "") = false) (hdd : V.contains (pfx ++ ".**") = true) :
    validKeyPart pfx key v V = [] := by
  unfold validKeyPart
  simp only [show ∀ fp, skipNestedValidation pfx fp V = true from
    fun fp => skipNested_of_openValue pfx fp V hne hdd]
  simp

/-- Under a prefix carrying both the open-map and the open-value marker an
object contributes no unknown paths. -/
theorem compareObjEntries_open_empty (pfx : String) (entries : List (String × JVal))
    (V : List String) (hne : (pfx == "") = false)
    (hstar : V.contains (pfx ++ ".*") = true)
    (hdd : V.contains (pfx ++ ".**") = true) :
    compareObjEntries pfx entries V = [] := by
  induction entries with
  | nil => rfl
  | cons e rest ih =>
    match e with
    | (key, value) =>
      unfold compareObjEntries
      rw [isValidKey_of_openMap pfx key V hne hstar]
      rw [validKeyPart_of_openValue pfx key value V hne hdd]
      simpa using ih

/-- C3 amended: (a) beneath a prefix that carries both the open-map marker
`.*` and the open-value marker `.**` — exactly the pair `collectStructFields`
records for a fully dynamic map — no path is ever reported, at any depth;
(b) at a prefix whose open-map marker is in the set, no key of an object is
itself reported: every key is accepted, and only the findings of descending
into struct-valued entries (which the code does report, with the map key
replaced by `*`) remain. -/
theorem c3_open_markers_suppress_reports (pfx : String) (d : JVal)
    (V : List String) (hne : (pfx == "") = false)
    (hstar : V.contains (pfx ++ ".*") = true) :
    (V.contains (pfx ++ ".**") = true → compareFields pfx d V = [])
    ∧ (∀ entries, d = .obj entries →
        compareFields pfx d V =
          entries.flatMap (fun e => validKeyPart pfx e.1 e.2 V)) := by
  constructor
  · intro hdd
    match d with
    | .scalar => rfl
    | .obj entries => exact compareObjEntries_open_empty pfx entries V hne hstar hdd
    | .arr items =>
      show compareArrayItems pfx items V = []
      induction items with
      | nil => rfl
      | cons item rest ih =>
        unfold compareArrayItems
        rw [ih]
        match item with
        | .scalar => rfl
        | .arr _ => rfl
        | .obj nested =>
          simpa using compareObjEntries_open_empty pfx nested V hne hstar hdd
  · intro entries hd
    subst hd
    show compareObjEntries pfx entries V = _
    induction entries with
    | nil => rfl
    | cons e rest ih =>
      match e with
      | (key, value) =>
        unfold compareObjEntries
        rw [isValidKey_of_openMap pfx key V hne hstar]
        simp only [List.flatMap_cons]
        rw [ih]
        simp

/-- C3 witness: under the fully dynamic map field `x` (valid-field set
`["x", "x.*", "x.**"]`) nothing is reported at any depth, and every key of
an object under `x` is accepted. -/
theorem c3_open_markers_suppress_reports_witness :
    (List.contains ["x", "x.*", "x.**"] ("x" ++ ".**") = true →
      compareFields "x" (.obj [("k", .obj [("deep", .obj [("deeper", .scalar)])])])
        ["x", "x.*", "x.**"] = [])
    ∧ (∀ entries, JVal.obj [("k", .obj [("deep", .obj [("deeper", .scalar)])])] = .obj entries →
        compareFields "x" (.obj [("k", .obj [("deep", .obj [("deeper", .scalar)])])])
          ["x", "x.*", "x.**"] =
          entries.flatMap (fun e => validKeyPart "x" e.1 e.2 ["x", "x.*", "x.**"])) :=
  c3_open_markers_suppress_reports "x"
    (.obj [("k", .obj [("deep", .obj [("deeper", .scalar)])])])
    ["x", "x.*", "x.**"] (by decide) (by decide)

/-! ### C4 -/

/-- C4 counterexample: the claim says an undeclared path is reported
exactly once regardless of how many array elements repeat it.  For the
schema `struct { Servers []Server }` with `Server { Host, Port }`, a
payload whose three array elements include two carrying the same extra key
yields `servers[].extra` twice: each offending array element contributes
its own report. -/
theorem c4_array_repeat_reported_twice_counterexample :
    getValidFields (.struc [("Servers", "", "servers", true, false,
        .sliceOf (.struc [("Host", "", "host", true, false, .prim),
                          ("Port", "", "port", true, false, .prim)]))])
      = ["servers", "servers[].host", "servers[].port"]
    ∧ compareFields "" (.obj [("servers", .arr [
        .obj [("host", .scalar), ("port", .scalar), ("extra", .scalar)],
        .obj [("host", .scalar), ("port", .scalar), ("extra", .scalar)],
        .obj [("host", .scalar), ("port", .scalar)]])])
        ["servers", "servers[].host", "servers[].port"]
      = ["servers[].extra", "servers[].extra"]
    ∧ List.count "servers[].extra" ["servers[].extra", "servers[].extra"] = 2 :=
  ⟨rfl, rfl, by decide⟩

/-- A scalar value never contributes nested reports. -/
theorem validKeyPart_scalar (pfx key : String) (V : List String) :
    validKeyPart pfx key .scalar V = [] := by
  simp [validKeyPart, ite_self]

/-- Reports of a flat root object are among its keys. -/
theorem compareObjEntries_root_scalar_sub (V : List String) :
    ∀ (entries : List (String × JVal)),
    (∀ e ∈ entries, e.2 = .scalar) →
    ∀ p ∈ compareObjEntries "" entries V, p ∈ entries.map Prod.fst := by
  intro entries
  induction entries with
  | nil => intro _ p hp; simp [compareObjEntries] at hp
  | cons e rest ih =>
    intro hs p hp
    match e with
    | (k, v) =>
      have hv : v = .scalar := hs (k, v) (List.mem_cons_self _ _)
      subst hv
      unfold compareObjEntries at hp
      rw [validKeyPart_scalar] at hp
      simp only [List.map_cons]
      by_cases hvk : isValidKey "" k V = true
      · simp [hvk] at hp
        exact List.mem_cons_of_mem k
          (ih (fun e2 he2 => hs e2 (List.mem_cons_of_mem _ he2)) p hp)
      · simp [hvk] at hp
        rcases hp with hp | hp
        · simp [hp]
        · exact List.mem_cons_of_mem k
            (ih (fun e2 he2 => hs e2 (List.mem_cons_of_mem _ he2)) p hp)

/-- C4 amended: within one object level, distinct sibling unknown keys do
not duplicate a report: for a flat object payload (scalar values, keys
unique as JSON objects guarantee), every undeclared key is reported exactly
once and declared keys are not reported at all.  (Repetition across array
elements, per the counterexample, is what the original claim ruled out
incorrectly.) -/
theorem c4_flat_object_each_unknown_once (V : List String)
    (entries : List (String × JVal)) (X : String)
    (hnd : (entries.map Prod.fst).Nodup)
    (hscalar : ∀ e ∈ entries, e.2 = .scalar) :
    (compareFields "" (.obj entries) V).count X =
      if X ∈ entries.map Prod.fst ∧ isValidKey "" X V = false then 1 else 0 := by
  show (compareObjEntries "" entries V).count X = _
  induction entries with
  | nil => simp [compareObjEntries]
  | cons e rest ih =>
    match e with
    | (k, v) =>
      have hv : v = .scalar := hscalar (k, v) (List.mem_cons_self _ _)
      subst hv
      have hndr : (rest.map Prod.fst).Nodup := (List.nodup_cons.mp hnd).2
      have hkr : k ∉ rest.map Prod.fst := (List.nodup_cons.mp hnd).1
      have hsr : ∀ e2 ∈ rest, e2.2 = .scalar :=
        fun e2 he2 => hscalar e2 (List.mem_cons_of_mem _ he2)
      have ihr := ih hndr hsr
      unfold compareObjEntries
      rw [validKeyPart_scalar, List.count_append, ihr]
      by_cases hX : X = k
      · subst hX
        by_cases hvk : isValidKey "" X V = true
        · simp [hvk, hkr]
        · simp [hvk, hkr, List.count_cons]
      · have hmem : (X ∈ k :: List.map Prod.fst rest) ↔ (X ∈ List.map Prod.fst rest) := by
          simp [List.mem_cons, hX]
        by_cases hvk : isValidKey "" k V = true
        · simp only [hvk]
          simp only [List.map_cons]
          rw [if_congr (and_congr_left fun _ => hmem) rfl rfl]
          simp
        · simp only [hvk]
          simp only [List.map_cons]
          rw [if_congr (and_congr_left fun _ => hmem) rfl rfl]
          simp [List.count_cons, Ne.symm hX]

/-- C4 witness: a flat object with one declared and one undeclared key
reports the undeclared key exactly once. -/
theorem c4_flat_object_each_unknown_once_witness :
    (compareFields "" (.obj [("version", .scalar), ("extra", .scalar)]) ["version"]).count "extra"
      = if "extra" ∈ [("version", JVal.scalar), ("extra", JVal.scalar)].map Prod.fst
           ∧ isValidKey "" "extra" ["version"] = false then 1 else 0 :=
  c4_flat_object_each_unknown_once ["version"]
    [("version", .scalar), ("extra", .scalar)] "extra"
    (by decide)
    (by intro e he
        simp only [List.mem_cons, List.not_mem_nil, or_false] at he
        rcases he with rfl | rfl <;> rfl)

/-! ### C10 -/

/-- The walk of a concatenated field list is the walk of the first part
followed by the walk of the second part at the shifted reflection index,
threading the copy store. -/
theorem walkFields_append (pfx : String) (A B : List MField) (idx : Nat)
    (loc : Loc) (copies : List MVal) :
    walkFields pfx (A ++ B) idx loc copies =
      ((walkFields pfx A idx loc copies).1
         ++ (walkFields pfx B (idx + A.length) loc
              (walkFields pfx A idx loc copies).2).1,
       (walkFields pfx B (idx + A.length) loc
         (walkFields pfx A idx loc copies).2).2) := by
  induction A generalizing idx copies with
  | nil => simp [walkFields]
  | cons f A2 ih =>
    have harith : idx + (A2.length + 1) = idx + 1 + A2.length := by omega
    match f with
    | .mk n t e an v =>
      by_cases he : e = true
      · subst he
        match v with
        | .vstr _ | .vbool _ | .vint _ _ _ | .vuint _ _ | .vfloat _ _
        | .vslice _ _ | .vother _ =>
          simp [walkFields, ih, List.length_cons, harith]
        | .vstrukt inner =>
          simp [walkFields, ih, List.length_cons, harith]
        | .vmap elemIsStruct entriesOpt =>
          match entriesOpt with
          | none => simp [walkFields, ih, List.length_cons, harith]
          | some entries =>
            by_cases hst : elemIsStruct = true
            · subst hst
              simp [walkFields, ih, List.length_cons, harith]
            · have hst2 : elemIsStruct = false := by simp_all
              subst hst2
              simp [walkFields, ih, List.length_cons, harith]
      · have he2 : e = false := by simp_all
        subst he2
        rw [walkFields.eq_def]
        simp only [List.length_cons]
        rw [harith]
        conv =>
          rhs
          rw [walkFields.eq_def]
        simp [ih]

/-- C10: a map field whose current value is nil, and likewise a map field
whose value type is not a struct (for example `map[string]string`),
contributes no field descriptor and no addressable copy to the flat view:
the walk of a struct containing such a field equals the walk of the fields
before it followed by the walk of the fields after it (only the reflection
index advances past the skipped field), so such fields can never be set
through the descriptor list. -/
theorem c10_non_struct_or_nil_map_contributes_nothing
    (pfx : String) (F1 F2 : List MField) (n : String) (t : Option String)
    (an : Bool) (mv : MVal) (idx : Nat) (loc : Loc) (copies : List MVal)
    (hmv : (∃ b, mv = .vmap b none) ∨ (∃ es, mv = .vmap false (some es))) :
    walkFields pfx (F1 ++ .mk n t true an mv :: F2) idx loc copies =
      ((walkFields pfx F1 idx loc copies).1
         ++ (walkFields pfx F2 (idx + F1.length + 1) loc
              (walkFields pfx F1 idx loc copies).2).1,
       (walkFields pfx F2 (idx + F1.length + 1) loc
         (walkFields pfx F1 idx loc copies).2).2) := by
  have hskip : ∀ (j : Nat) (C : List MVal),
      walkFields pfx (.mk n t true an mv :: F2) j loc C =
        walkFields pfx F2 (j + 1) loc C := by
    intro j C
    rcases hmv with ⟨b, rfl⟩ | ⟨es, rfl⟩
    · rw [walkFields.eq_def]
      simp
    · rw [walkFields.eq_def]
      simp
  rw [walkFields_append, hskip]

/-- C10 witness: a struct with a string field, a nil map-of-struct field, a
`map[string]string` field and a bool field yields descriptors for the
string and bool fields only. -/
theorem c10_non_struct_or_nil_map_contributes_nothing_witness :
    walkFields "" ([.mk "A" none true false (.vstr "")]
        ++ .mk "N" none true false (.vmap false (some [("x", .vstr "y")]))
        :: [.mk "Z" none true false (.vbool false)]) 0 ⟨none, []⟩ []
      = ((walkFields "" [.mk "A" none true false (.vstr "")] 0 ⟨none, []⟩ []).1
           ++ (walkFields "" [.mk "Z" none true false (.vbool false)] (0 + 1 + 1) ⟨none, []⟩
                (walkFields "" [.mk "A" none true false (.vstr "")] 0 ⟨none, []⟩ []).2).1,
         (walkFields "" [.mk "Z" none true false (.vbool false)] (0 + 1 + 1) ⟨none, []⟩
           (walkFields "" [.mk "A" none true false (.vstr "")] 0 ⟨none, []⟩ []).2).2)
    ∧ (walkFields "" ([.mk "A" none true false (.vstr "")]
        ++ .mk "N" none true false (.vmap false (some [("x", .vstr "y")]))
        :: [.mk "Z" none true false (.vbool false)]) 0 ⟨none, []⟩ []).1
      = [⟨"A", ⟨none, [0]⟩, []⟩, ⟨"Z", ⟨none, [2]⟩, []⟩] :=
  ⟨c10_non_struct_or_nil_map_contributes_nothing "" [.mk "A" none true false (.vstr "")]
     [.mk "Z" none true false (.vbool false)] "N" none false
     (.vmap false (some [("x", .vstr "y")])) 0 ⟨none, []⟩ []
     (Or.inr ⟨[("x", .vstr "y")], rfl⟩),
   by rfl⟩

/-! ### C9 -/

/-- A walk of leaf-only fields produces exactly `flatDescs` and leaves the
copy store untouched. -/
theorem walkFields_flat (pfx : String) : ∀ (fs : List MField) (idx : Nat)
    (loc : Loc) (copies : List MVal),
    (∀ f ∈ fs, isLeafB f.val = true) →
    walkFields pfx fs idx loc copies = (flatDescs pfx fs idx loc, copies) := by
  intro fs
  induction fs with
  | nil => intro idx loc copies _; rfl
  | cons f rest ih =>
    intro idx loc copies hflat
    have hf : isLeafB f.val = true := hflat f (List.mem_cons_self _ _)
    have hrest : ∀ f2 ∈ rest, isLeafB f2.val = true :=
      fun f2 h2 => hflat f2 (List.mem_cons_of_mem _ h2)
    match f with
    | .mk n t e a v =>
      by_cases he : e = true
      · subst he
        match v with
        | .vstr _ | .vbool _ | .vint _ _ _ | .vuint _ _ | .vfloat _ _
        | .vslice _ _ | .vother _ =>
          rw [walkFields.eq_def]
          simp only [flatDescs]
          rw [ih (idx + 1) loc copies hrest]
          simp
        | .vstrukt _ => simp [isLeafB, MField.val] at hf
        | .vmap _ _ => simp [isLeafB, MField.val] at hf
      · have he2 : e = false := by simp_all
        subst he2
        rw [walkFields.eq_def]
        simp only [flatDescs]
        rw [ih (idx + 1) loc copies hrest]
        simp

/-- `walkMapEntries` over entries whose values are flat structs: one copy
per entry, appended in order, and the wrapped `flatDescs` of each value. -/
theorem walkMapEntries_flat (mapPfx : String) : ∀ (entries : List (String × MVal))
    (mapLoc : Loc) (copies : List MVal),
    (∀ e ∈ entries, ∃ gs, e.2 = .vstrukt gs ∧ ∀ g ∈ gs, isLeafB g.val = true) →
    walkMapEntries mapPfx entries mapLoc copies =
      (flatMapDescs mapPfx entries mapLoc copies.length,
       copies ++ entries.map Prod.snd) := by
  intro entries
  induction entries with
  | nil => intro mapLoc copies _; simp [walkMapEntries, flatMapDescs]
  | cons e rest ih =>
    intro mapLoc copies hflat
    match e with
    | (k, v) =>
      rcases hflat (k, v) (List.mem_cons_self _ _) with ⟨gs, hv, hgs⟩
      simp only at hv
      subst hv
      have hrest : ∀ e2 ∈ rest, ∃ gs2, e2.2 = .vstrukt gs2
          ∧ ∀ g ∈ gs2, isLeafB g.val = true :=
        fun e2 h2 => hflat e2 (List.mem_cons_of_mem _ h2)
      rw [walkMapEntries.eq_def]
      simp only [walkCopy, structFieldsOfVal]
      have hw := walkFields_flat (mapPfx ++ "." ++ k) gs 0 ⟨some copies.length, []⟩
        (copies ++ [MVal.vstrukt gs]) hgs
      rw [hw]
      simp only
      rw [ih mapLoc (copies ++ [MVal.vstrukt gs]) hrest]
      simp [flatMapDescs, structFieldsOfVal]

/-- The descriptor of the `j`-th field (exported) appears in `flatDescs`. -/
theorem flatDescs_mem (pfx : String) : ∀ (gs : List MField) (j idx : Nat) (loc : Loc)
    (n : String) (t : Option String) (a : Bool) (v : MVal),
    gs[j]? = some (.mk n t true a v) →
    (⟨(if pfx == "" then leafFieldName (.mk n t true a v)
       else pfx ++ "." ++ leafFieldName (.mk n t true a v)),
      ⟨loc.base, loc.path ++ [idx + j]⟩, []⟩ : MDesc) ∈ flatDescs pfx gs idx loc := by
  intro gs
  induction gs with
  | nil => intro j idx loc n t a v h; simp at h
  | cons g rest ih =>
    intro j idx loc n t a v h
    match j with
    | 0 =>
      simp at h
      subst h
      simp [flatDescs]
    | jj + 1 =>
      simp at h
      have hmem := ih jj (idx + 1) loc n t a v (by simpa using h)
      have harith : idx + 1 + jj = idx + (jj + 1) := by omega
      rw [harith] at hmem
      match g with
      | .mk gn gt ge ga gv =>
        simp only [flatDescs]
        exact List.mem_append_right _ hmem

/-- A dotted concatenation is never the empty string. -/
theorem dotted_ne_empty (a b : String) : ((a ++ "." ++ b) == "") = false := by
  rw [beq_eq_false_iff_ne]
  intro h
  have h2 := congrArg String.data h
  simp [String.data_append] at h2

/-- The wrapped descriptor of leaf `j` of the entry at position `|E1|`
appears in `flatMapDescs`. -/
theorem flatMapDescs_mem (mapPfx : String) : ∀ (E1 : List (String × MVal))
    (k : String) (vfs : List MField) (E2 : List (String × MVal)) (mapLoc : Loc)
    (cidx j : Nat) (n : String) (t : Option String) (a : Bool) (v : MVal),
    vfs[j]? = some (.mk n t true a v) →
    (⟨(mapPfx ++ "." ++ k) ++ "." ++ leafFieldName (.mk n t true a v),
      ⟨some (cidx + E1.length), [j]⟩,
      [⟨mapLoc, k, cidx + E1.length⟩]⟩ : MDesc)
      ∈ flatMapDescs mapPfx (E1 ++ (k, .vstrukt vfs) :: E2) mapLoc cidx := by
  intro E1
  induction E1 with
  | nil =>
    intro k vfs E2 mapLoc cidx j n t a v hj
    simp only [List.nil_append, flatMapDescs, structFieldsOfVal]
    apply List.mem_append_left
    have hm := flatDescs_mem (mapPfx ++ "." ++ k) vfs j 0 ⟨some cidx, []⟩ n t a v hj
    rw [dotted_ne_empty mapPfx k] at hm
    simp only [Bool.false_eq_true, if_false, List.nil_append, Nat.zero_add] at hm
    refine List.mem_map.mpr ⟨_, hm, ?_⟩
    simp
  | cons e1 rest ih =>
    intro k vfs E2 mapLoc cidx j n t a v hj
    match e1 with
    | (k1, v1) =>
      simp only [List.cons_append, flatMapDescs]
      apply List.mem_append_right
      have hmem := ih k vfs E2 mapLoc (cidx + 1) j n t a v hj
      have harith : cidx + 1 + rest.length = cidx + (rest.length + 1) := by omega
      rw [harith] at hmem
      simpa using hmem

/-- Reading struct field `j` after entering a struct value. -/
theorem getFieldPath_nth : ∀ (fs : List MField) (j : Nat) (n : String)
    (t : Option String) (e a : Bool) (v : MVal),
    fs[j]? = some (.mk n t e a v) → getFieldPath fs j [] = some v := by
  intro fs
  induction fs with
  | nil => intro j n t e a v h; simp at h
  | cons f rest ih =>
    intro j n t e a v h
    match j with
    | 0 =>
      simp at h
      subst h
      simp [getFieldPath, getAtPath]
    | jj + 1 =>
      simp at h
      simpa [getFieldPath] using ih jj n t e a v (by simpa using h)

/-- Updating struct field number `|F1|` in a concatenated field list. -/
theorem updFieldPath_append : ∀ (F1 : List MField) (n : String)
    (t : Option String) (e a : Bool) (v : MVal) (F2 : List MField)
    (g : MVal → MVal),
    updFieldPath (F1 ++ .mk n t e a v :: F2) F1.length [] g =
      F1 ++ .mk n t e a (g v) :: F2 := by
  intro F1
  induction F1 with
  | nil => intro n t e a v F2 g; simp [updFieldPath, updAtPath]
  | cons f rest ih =>
    intro n t e a v F2 g
    match f with
    | .mk fn ft fe fa fv =>
      simp only [List.cons_append, List.length_cons, updFieldPath, List.append_eq]
      rw [ih]

/-- `assocSet` replaces the first binding of a present key in place. -/
theorem assocSet_found : ∀ (E1 : List (String × MVal)) (k : String)
    (v0 nv : MVal) (E2 : List (String × MVal)),
    (∀ e ∈ E1, (e.1 == k) = false) →
    assocSet (E1 ++ (k, v0) :: E2) k nv = E1 ++ (k, nv) :: E2 := by
  intro E1
  induction E1 with
  | nil => intro k v0 nv E2 _; simp [assocSet]
  | cons e1 rest ih =>
    intro k v0 nv E2 hne
    match e1 with
    | (k1, w1) =>
      have h1 : (k1 == k) = false := hne (k1, w1) (List.mem_cons_self _ _)
      simp only [List.cons_append, assocSet, h1, List.append_eq]
      simp only [Bool.false_eq_true, if_false]
      rw [ih k v0 nv E2 (fun e he => hne e (List.mem_cons_of_mem _ he))]

/-- `getD` after `set` at the same (in-bounds) index yields the new value. -/
theorem list_getD_set_self {α : Type} : ∀ (l : List α) (i : Nat) (x d : α),
    i < l.length → (l.set i x).getD i d = x := by
  intro l
  induction l with
  | nil => intro i x d h; simp at h
  | cons a rest ih =>
    intro i x d h
    match i with
    | 0 => simp [List.set]
    | j + 1 =>
      simp only [List.set, List.getD_cons_succ]
      exact ih j x d (by simpa using h)

/-- The element at position `|A|` of `A ++ b :: B`. -/
theorem getElem?_append_middle {α : Type} : ∀ (A : List α) (b : α) (B : List α),
    (A ++ b :: B)[A.length]? = some b := by
  intro A
  induction A with
  | nil => intro b B; simp
  | cons a rest ih => intro b B; simpa using ih b B

/-- C9: for a map field whose value type is a struct, the walk produces for
every leaf of every entry's addressable copy a descriptor whose write-back
chain re-inserts the copy into the original map under its key (composed
after any previously attached closures); a successful `Set` on the
descriptor runs the chain and the root's map entry holds the mutated copy,
while after a failed `Set` the root — and in particular the map entry — is
unchanged.  (Here the surrounding fields and the entry values are leaf
structs, i.e. one level of map nesting.) -/
theorem c9_map_value_writeback
    (F1 F2 vfs : List MField) (mname : String) (mtag : Option String) (man : Bool)
    (E1 E2 : List (String × MVal)) (k : String) (j : Nat)
    (jn : String) (jt : Option String) (ja : Bool) (jv : MVal)
    (hF1 : ∀ f ∈ F1, isLeafB f.val = true)
    (hF2 : ∀ f ∈ F2, isLeafB f.val = true)
    (hvfs : ∀ g ∈ vfs, isLeafB g.val = true)
    (hE : ∀ e ∈ E1 ++ E2, ∃ gs, e.2 = MVal.vstrukt gs ∧ ∀ g ∈ gs, isLeafB g.val = true)
    (hkey : ∀ e ∈ E1, (e.1 == k) = false)
    (hj : vfs[j]? = some (.mk jn jt true ja jv)) :
    ∃ d ∈ (viewStruct (F1 ++ .mk mname mtag true man
        (.vmap true (some (E1 ++ (k, .vstrukt vfs) :: E2))) :: F2)).1,
      d.name = (mname ++ "." ++ k) ++ "." ++ leafFieldName (.mk jn jt true ja jv)
      ∧ d.loc = ⟨some E1.length, [j]⟩
      ∧ d.syncs = [⟨⟨none, [F1.length]⟩, k, E1.length⟩]
      ∧ ∀ s : String,
          (fieldSet ⟨.vstrukt (F1 ++ .mk mname mtag true man
                (.vmap true (some (E1 ++ (k, .vstrukt vfs) :: E2))) :: F2),
              (viewStruct (F1 ++ .mk mname mtag true man
                (.vmap true (some (E1 ++ (k, .vstrukt vfs) :: E2))) :: F2)).2⟩ d s).1
            = (coerceVal jv s).1
          ∧ ((coerceVal jv s).1 = none →
              (fieldSet ⟨.vstrukt (F1 ++ .mk mname mtag true man
                  (.vmap true (some (E1 ++ (k, .vstrukt vfs) :: E2))) :: F2),
                (viewStruct (F1 ++ .mk mname mtag true man
                  (.vmap true (some (E1 ++ (k, .vstrukt vfs) :: E2))) :: F2)).2⟩ d s).2.root
              = .vstrukt (F1 ++ .mk mname mtag true man
                  (.vmap true (some (E1 ++ (k, .vstrukt (updFieldPath vfs j []
                    (fun _ => (coerceVal jv s).2))) :: E2))) :: F2))
          ∧ ((coerceVal jv s).1 ≠ none →
              (fieldSet ⟨.vstrukt (F1 ++ .mk mname mtag true man
                  (.vmap true (some (E1 ++ (k, .vstrukt vfs) :: E2))) :: F2),
                (viewStruct (F1 ++ .mk mname mtag true man
                  (.vmap true (some (E1 ++ (k, .vstrukt vfs) :: E2))) :: F2)).2⟩ d s).2.root
              = .vstrukt (F1 ++ .mk mname mtag true man
                  (.vmap true (some (E1 ++ (k, .vstrukt vfs) :: E2))) :: F2)) := by
  have hes : ∀ e ∈ E1 ++ (k, MVal.vstrukt vfs) :: E2,
      ∃ gs, e.2 = MVal.vstrukt gs ∧ ∀ g ∈ gs, isLeafB g.val = true := by
    intro e he
    rcases List.mem_append.mp he with h1 | h2
    · exact hE e (List.mem_append_left _ h1)
    · rcases List.mem_cons.mp h2 with h3 | h4
      · subst h3
        exact ⟨vfs, rfl, hvfs⟩
      · exact hE e (List.mem_append_right _ h4)
  have hview : viewStruct (F1 ++ .mk mname mtag true man
      (.vmap true (some (E1 ++ (k, .vstrukt vfs) :: E2))) :: F2) =
      (flatDescs "" F1 0 ⟨none, []⟩
        ++ (flatMapDescs mname (E1 ++ (k, .vstrukt vfs) :: E2) ⟨none, [F1.length]⟩ 0
            ++ flatDescs "" F2 (F1.length + 1) ⟨none, []⟩),
       (E1 ++ (k, .vstrukt vfs) :: E2).map Prod.snd) := by
    unfold viewStruct
    rw [walkFields_append]
    rw [walkFields_flat "" F1 0 ⟨none, []⟩ [] hF1]
    simp only [Nat.zero_add]
    rw [walkFields.eq_def]
    simp only [Bool.true_eq_false, not_true_eq_false, Bool.false_eq_true, if_false,
      not_true, if_true, ite_false, ite_true, String.append_empty, beq_self_eq_true]
    have hwme := walkMapEntries_flat mname (E1 ++ (k, .vstrukt vfs) :: E2)
      ⟨none, [] ++ [F1.length]⟩ [] hes
    simp only [List.nil_append] at hwme
    simp only [List.nil_append]
    rw [hwme]
    simp only [List.length_nil]
    rw [walkFields_flat "" F2 (F1.length + 1) ⟨none, []⟩
      ((E1 ++ (k, .vstrukt vfs) :: E2).map Prod.snd) hF2]
  have hdmem := flatMapDescs_mem mname E1 k vfs E2 ⟨none, [F1.length]⟩ 0 j jn jt ja jv hj
  simp only [Nat.zero_add] at hdmem
  refine ⟨⟨(mname ++ "." ++ k) ++ "." ++ leafFieldName (.mk jn jt true ja jv),
    ⟨some E1.length, [j]⟩, [⟨⟨none, [F1.length]⟩, k, E1.length⟩]⟩, ?_, rfl, rfl, rfl, ?_⟩
  · rw [hview]
    exact List.mem_append_right _ (List.mem_append_left _ hdmem)
  · intro s
    rw [hview]
    have hcopies : ((E1 ++ (k, MVal.vstrukt vfs) :: E2).map Prod.snd)[E1.length]?
        = some (.vstrukt vfs) := by
      rw [List.map_append, List.map_cons]
      have := getElem?_append_middle (E1.map Prod.snd) (MVal.vstrukt vfs) (E2.map Prod.snd)
      rwa [List.length_map] at this
    have hget : getAtLoc ⟨.vstrukt (F1 ++ .mk mname mtag true man
        (.vmap true (some (E1 ++ (k, .vstrukt vfs) :: E2))) :: F2),
        (E1 ++ (k, MVal.vstrukt vfs) :: E2).map Prod.snd⟩
        ⟨some E1.length, [j]⟩ = some jv := by
      simp only [getAtLoc, hcopies]
      exact getFieldPath_nth vfs j jn jt true ja jv hj
    rcases hc : coerceVal jv s with ⟨err, nv⟩
    have hlen : E1.length < ((E1 ++ (k, MVal.vstrukt vfs) :: E2).map Prod.snd).length := by
      simp
    have hgetD : ((E1 ++ (k, MVal.vstrukt vfs) :: E2).map Prod.snd).getD E1.length
        (.vother "missing") = .vstrukt vfs := by
      rw [List.getD_eq_getElem?_getD, hcopies]
      rfl
    match err with
    | none =>
      refine ⟨?_, fun _ => ?_, fun hne => absurd rfl hne⟩
      · simp only [fieldSet, hget, hc, runSyncs, List.foldl]
      · simp only [fieldSet, hget, hc, runSyncs, List.foldl, applySync, updAtLoc, hgetD]
        simp only [updAtPath, updFieldPath]
        rw [list_getD_set_self _ _ _ _ hlen]
        rw [updFieldPath_append]
        have hred := assocSet_found E1 k (MVal.vstrukt vfs)
          (MVal.vstrukt (updFieldPath vfs j [] fun _ => nv)) E2 hkey
        simp only [hred]
    | some e =>
      refine ⟨?_, fun hnone => absurd hnone (by simp), fun _ => ?_⟩
      · simp only [fieldSet, hget, hc]
      · simp only [fieldSet, hget, hc, updAtLoc]

/-- Witness for C9: a root struct holding one map field `m` with a single
entry `"a"` whose value is a one-leaf struct. -/
theorem c9_map_value_writeback_witness :
    ∃ d ∈ (viewStruct ([] ++ MField.mk "m" none true false
        (.vmap true (some ([] ++ ("a", MVal.vstrukt [MField.mk "port" none true false
          (.vint 64 false 7)]) :: []))) :: [])).1,
      d.name = ("m" ++ "." ++ "a") ++ "." ++
          leafFieldName (MField.mk "port" none true false (.vint 64 false 7))
      ∧ d.loc = ⟨some 0, [0]⟩
      ∧ d.syncs = [⟨⟨none, [0]⟩, "a", 0⟩]
      ∧ ∀ s : String,
          (fieldSet ⟨.vstrukt ([] ++ MField.mk "m" none true false
                (.vmap true (some ([] ++ ("a", MVal.vstrukt [MField.mk "port" none true false
                  (.vint 64 false 7)]) :: []))) :: []),
              (viewStruct ([] ++ MField.mk "m" none true false
                (.vmap true (some ([] ++ ("a", MVal.vstrukt [MField.mk "port" none true false
                  (.vint 64 false 7)]) :: []))) :: [])).2⟩ d s).1
            = (coerceVal (.vint 64 false 7) s).1
          ∧ ((coerceVal (.vint 64 false 7) s).1 = none →
              (fieldSet ⟨.vstrukt ([] ++ MField.mk "m" none true false
                  (.vmap true (some ([] ++ ("a", MVal.vstrukt [MField.mk "port" none true false
                    (.vint 64 false 7)]) :: []))) :: []),
                (viewStruct ([] ++ MField.mk "m" none true false
                  (.vmap true (some ([] ++ ("a", MVal.vstrukt [MField.mk "port" none true false
                    (.vint 64 false 7)]) :: []))) :: [])).2⟩ d s).2.root
              = .vstrukt ([] ++ MField.mk "m" none true false
                  (.vmap true (some ([] ++ ("a", MVal.vstrukt (updFieldPath
                    [MField.mk "port" none true false (.vint 64 false 7)] 0 []
                    (fun _ => (coerceVal (.vint 64 false 7) s).2))) :: []))) :: []))
          ∧ ((coerceVal (.vint 64 false 7) s).1 ≠ none →
              (fieldSet ⟨.vstrukt ([] ++ MField.mk "m" none true false
                  (.vmap true (some ([] ++ ("a", MVal.vstrukt [MField.mk "port" none true false
                    (.vint 64 false 7)]) :: []))) :: []),
                (viewStruct ([] ++ MField.mk "m" none true false
                  (.vmap true (some ([] ++ ("a", MVal.vstrukt [MField.mk "port" none true false
                    (.vint 64 false 7)]) :: []))) :: [])).2⟩ d s).2.root
              = .vstrukt ([] ++ MField.mk "m" none true false
                  (.vmap true (some ([] ++ ("a", MVal.vstrukt [MField.mk "port" none true false
                    (.vint 64 false 7)]) :: []))) :: [])) :=
  c9_map_value_writeback [] [] [MField.mk "port" none true false (.vint 64 false 7)]
    "m" none false [] [] "a" 0 "port" none false (.vint 64 false 7)
    (by simp) (by simp) (by decide) (by simp) (by simp) rfl
